import Mathlib

/-!
Verification development for the legacy `pytest_cases.main` module
(file `src/pytest_cases/main.py` of the repository).

The Python module is shallowly embedded below.  Modelling conventions:

* Python functions discovered in a module are records (`PyFunc`) carrying the
  attributes the code reads: `__name__`, the resolved code object (`_get_code`
  follows `__wrapped__` chains and then reads `__code__`; the record stores the
  resolved code object directly, so only callables that do have a resolvable
  code object are in the model), the `CASE_TAGS_FIELD` tag tuple (absent
  attribute is modelled by the empty list, matching the `getattr` default),
  the `_GENERATOR_FIELD` triple (absent is `none`, matching the `False`
  default), the `pytestmark` list (absent is `[]`), and the call behaviour.
* Python dicts are association lists in insertion order; `pySet` mirrors
  `d[k] = v` (replacing in place, keeping the stored key object) and
  `pyUpdate` mirrors `d.update(d2)`.
* The floating-point dict key `co_firstlineno + gen_case_id / nb_cases_generated`
  is idealized as the exact rational it denotes.  It is represented by the
  numerator data (`CaseKey`) so that comparisons stay kernel-computable; the
  denominator is stored through its predecessor `denM1` because every key the
  code forms has a positive denominator.  `keyVal` recovers the rational value.
* `sorted(...)` and the sort performed inside `inspect.getmembers` (which
  returns members sorted by name) are modelled with `List.insertionSort`; on
  the distinct sort keys arising here any correct sort coincides with
  Python's.
* Exceptions are the explicit `Except PyErr` monad.  Error messages are the
  source strings with their `format` / `%` placeholders instantiated where the
  code instantiates them (the unreachable duplicate-fixture message elides the
  module `repr`, and `funcRepr` elides the memory address that `str` of a
  Python function contains).
-/

/-- Python exception values raised by the embedded code. -/
inductive PyErr where
  | valueError (msg : String)
  | typeError (msg : String)
  | indexError (msg : String)
deriving DecidableEq

/-- Is an `Except` value a success? -/
def exceptOk {ε α : Type} : Except ε α → Bool
  | .ok _ => true
  | .error _ => false

/-- Membership test of a key in a Python dict, with an explicit key-equality test. -/
def pyHasKey {κ β : Type} (beq : κ → κ → Bool) (d : List (κ × β)) (k : κ) : Bool :=
  d.any (fun p => beq p.1 k)

/-- `d[k]` as an `Option`, with an explicit key-equality test. -/
def pyGet {κ β : Type} (beq : κ → κ → Bool) (d : List (κ × β)) (k : κ) : Option β :=
  (d.find? (fun p => beq p.1 k)).map Prod.snd

/-- `d[k] = v` on an insertion-ordered association list: replace in place if the
key is present (keeping the stored key, as Python dicts do), else append. -/
def pySet {κ β : Type} (beq : κ → κ → Bool) (d : List (κ × β)) (k : κ) (v : β) : List (κ × β) :=
  if pyHasKey beq d k then d.map (fun p => if beq p.1 k then (p.1, v) else p) else d ++ [(k, v)]

/-- `d1.update(d2)` on insertion-ordered association lists. -/
def pyUpdate {κ β : Type} (beq : κ → κ → Bool) (d1 d2 : List (κ × β)) : List (κ × β) :=
  d2.foldl (fun acc p => pySet beq acc p.1 p.2) d1

/-- Key equality for string-keyed Python dicts. -/
def strBeq (a b : String) : Bool := a == b

/-- Exact value of the floating-point dict key
`co_firstlineno + gen_case_id / nb_cases_generated` built in `_get_case_getter_s`
(and of the integer key `co_firstlineno` for plain cases, whose value is the
same rational with numerator `0` and denominator `1`).  The denominator is
stored as its predecessor so every representable key has a positive
denominator, as every key built by the code does. -/
structure CaseKey where
  base : Nat
  num : Nat
  denM1 : Nat
deriving DecidableEq

/-- The (positive) denominator of a key. -/
def CaseKey.den (k : CaseKey) : Nat := k.denM1 + 1

/-- Numerator of the key value over the common denominator `k.den`. -/
def CaseKey.valNum (k : CaseKey) : Nat := k.base * k.den + k.num

/-- The rational value of a key: `base + num / den`. -/
def keyVal (k : CaseKey) : ℚ := (k.base : ℚ) + (k.num : ℚ) / (k.den : ℚ)

/-- Value equality of keys (Python `==` on the float/int key values),
by cross-multiplication. -/
def keyEqB (a b : CaseKey) : Bool := a.valNum * b.den == b.valNum * a.den

/-- Value order on keys (Python `<=` on the float/int key values),
by cross-multiplication. -/
def keyLe (a b : CaseKey) : Prop := a.valNum * b.den ≤ b.valNum * a.den

/-- Strict value order on keys. -/
def keyLt (a b : CaseKey) : Prop := a.valNum * b.den < b.valNum * a.den

instance : DecidableRel keyLe := fun _ _ => Nat.decLe _ _

instance : DecidableRel keyLt := fun _ _ => Nat.decLt _ _

/-- Code object attributes read by the code. -/
structure CodeObj where
  co_filename : String
  co_firstlineno : Nat
deriving DecidableEq

/-- The `_GENERATOR_FIELD` triple `(name_template, param_ids, all_param_values_combinations)`
set on a case generator function.  `name_template.format(**dct)` is modelled as
an abstract function of the parameter dict. -/
structure GenSpec (V : Type) where
  nameTemplate : List (String × V) → String
  paramIds : List String
  combos : List (List V)

/-- A function member of a module, with the attributes the code reads. -/
structure PyFunc (V : Type) where
  name : String
  code : CodeObj
  tags : List V
  gen : Option (GenSpec V)
  pytestmark : List String
  call : List V → List (String × V) → V

/-- A module: its `__file__` and its callable members as returned (unsorted)
to `inspect.getmembers`. -/
structure PyModule (V : Type) where
  file : String
  members : List (String × PyFunc V)

/-- The class `CaseDataFromFunction`: the stored function, the optional case
name, and the stored generator parameters. -/
structure CaseDataFromFunction (V : Type) where
  f : PyFunc V
  case_name : Option String
  function_kwargs : List (String × V)

/-- `CaseDataFromFunction.__str__`. -/
def CaseDataFromFunction.str {V : Type} (c : CaseDataFromFunction V) : String :=
  match c.case_name with
  | some n => n
  | none => c.f.name

/-- `str` of a Python function object, with the memory address elided. -/
def funcRepr {V : Type} (f : PyFunc V) : String := "<function " ++ f.name ++ ">"

/-- `CaseDataFromFunction.__repr__`. -/
def CaseDataFromFunction.reprStr {V : Type} (c : CaseDataFromFunction V) : String :=
  "Test Case Data generator - [" ++ c.str ++ "] - " ++ funcRepr c.f

/-- `CaseDataFromFunction.get_marks`: `self.f.pytestmark`, or `[]` when the
attribute is absent (absence is modelled by the empty list). -/
def CaseDataFromFunction.get_marks {V : Type} (c : CaseDataFromFunction V) : List String :=
  c.f.pytestmark

/-- `CaseDataFromFunction.get`: `kwargs.update(self.function_kwargs)` then
`self.f(*args, **kwargs)`. -/
def CaseDataFromFunction.get {V : Type} (c : CaseDataFromFunction V) (args : List V)
    (kwargs : List (String × V)) : V :=
  c.f.call args (pyUpdate strBeq kwargs c.function_kwargs)

/-- `CASE_PREFIX`. -/
def CASE_PREFIX : String := "case_"

/-- The `filter` argument of `extract_cases_from_module`: absent (`None`), a
non-callable value, or a callable.  The callable is modelled by the
truthiness of its return value on a tag tuple. -/
inductive FilterArg (V : Type) where
  | noFilter
  | nonCallable
  | callable (p : List V → Bool)

/-- The callable carried by a filter argument, if any. -/
def FilterArg.fn? {V : Type} : FilterArg V → Option (List V → Bool)
  | .callable p => some p
  | _ => none

/-- The selection logic of `extract_cases_from_module` (lines 597-601):
start from `True`, AND in `has_tag in _tags` when `has_tag` is given, then AND
in `filter(_tags)` when `filter` is given. -/
def caseSelected {V : Type} [DecidableEq V] (has_tag : Option V)
    (filt : Option (List V → Bool)) (tags : List V) : Bool :=
  let selected := true
  let selected :=
    match has_tag with
    | none => selected
    | some t => selected && decide (t ∈ tags)
  match filt with
  | none => selected
  | some p => selected && p tags

/-- `_get_code`: resolves `__wrapped__` chains and returns the code object.
The model stores the resolved code object on the function record. -/
def _get_code {V : Type} (f : PyFunc V) : CodeObj := f.code

/-- Error message raised for a non-callable `filter` argument. -/
def filterNotCallableMsg : String :=
  "`filter` should be a callable starting in pytest-cases 0.8.0. If you wish to provide a single tag to match, use `has_tag` instead."

/-- Error message for duplicate generated case names (the `format` placeholder
is instantiated with the function name, as the code does). -/
def dupNamesMsg {V : Type} (f : PyFunc V) : String :=
  "Generated function names for generator case function " ++ f.name ++
  " are not unique. Please use all parameter names in the string format variables"

/-- `dict(zip(param_ids, case_params_values))`. -/
def pyDictZip {V : Type} (ks : List String) (vs : List V) : List (String × V) :=
  pyUpdate strBeq [] (ks.zip vs)

/-- The generator loop of `_get_case_getter_s` in list mode (`cases_dct is None`):
for each parameter combination, build the name from the template, raise on a
name already used, and append a `CaseDataFromFunction` to the result list. -/
def genLoopList {V : Type} (f : PyFunc V) (g : GenSpec V) :
    List (List V) → List String → List (CaseDataFromFunction V) →
    Except PyErr (List (CaseDataFromFunction V))
  | [], _, acc => .ok acc
  | vals :: rest, used, acc =>
    let prms := pyDictZip g.paramIds vals
    let nm := g.nameTemplate prms
    if nm ∈ used then .error (.valueError (dupNamesMsg f))
    else genLoopList f g rest (used ++ [nm]) (acc ++ [⟨f, some nm, prms⟩])

/-- `_get_case_getter_s(f)` in list mode (`cases_dct is None`): expand a case
generator into one getter per parameter combination, or build the single
getter for a plain case function. -/
def _get_case_getter_s {V : Type} (f : PyFunc V) : Except PyErr (List (CaseDataFromFunction V)) :=
  match f.gen with
  | some g => genLoopList f g g.combos [] []
  | none => .ok [⟨f, none, []⟩]

/-- The artificial floating line number `f_code.co_firstlineno + gen_case_id / nb_cases_generated`. -/
def genKey (L i n : Nat) : CaseKey := ⟨L, i, n - 1⟩

/-- The integer dict key `f_code.co_firstlineno` used for a plain case. -/
def lineKey (L : Nat) : CaseKey := ⟨L, 0, 0⟩

/-- The generator loop of `_get_case_getter_s` in dict mode: same as the list
mode but each getter is stored in `cases_dct` under its floating key. -/
def genLoopDict {V : Type} (f : PyFunc V) (g : GenSpec V) (n : Nat) :
    Nat → List (List V) → List String → List (CaseKey × CaseDataFromFunction V) →
    Except PyErr (List (CaseKey × CaseDataFromFunction V))
  | _, [], _, dct => .ok dct
  | i, vals :: rest, used, dct =>
    let prms := pyDictZip g.paramIds vals
    let nm := g.nameTemplate prms
    if nm ∈ used then .error (.valueError (dupNamesMsg f))
    else genLoopDict f g n (i + 1) rest (used ++ [nm])
      (pySet keyEqB dct (genKey f.code.co_firstlineno i n) ⟨f, some nm, prms⟩)

/-- `_get_case_getter_s(f, f_code, cases_dct)` in dict mode: store the getters
in `cases_dct` keyed by (floating) line number. -/
def getCaseGettersIntoDict {V : Type} (f : PyFunc V)
    (dct : List (CaseKey × CaseDataFromFunction V)) :
    Except PyErr (List (CaseKey × CaseDataFromFunction V)) :=
  match f.gen with
  | some g => genLoopDict f g g.combos.length 0 g.combos [] dct
  | none => .ok (pySet keyEqB dct (lineKey f.code.co_firstlineno) ⟨f, none, []⟩)

/-- Sorting of the members returned by `inspect.getmembers` (by member name;
Python compares strings by code point, i.e. lexicographically on the character
lists). -/
def byMemberName {V : Type} (a b : String × PyFunc V) : Prop := a.1.data ≤ b.1.data

instance {V : Type} : DecidableRel (@byMemberName V) :=
  fun a b => inferInstanceAs (Decidable (a.1.data ≤ b.1.data))

/-- `s.startswith(pre)`, on the character lists. -/
def pyStartsWith (s pre : String) : Bool := pre.data.isPrefixOf s.data

/-- `inspect.getmembers(module, callable)`: the members sorted by name. -/
def getmembers {V : Type} (m : PyModule V) : List (String × PyFunc V) :=
  List.insertionSort byMemberName m.members

/-- The body of the member loop of `extract_cases_from_module` (lines 586-605):
keep members whose name starts with `case_` and whose code object is from the
module file, apply the tag/filter selection, and store their getters in the
dict. -/
def extractStep {V : Type} [DecidableEq V] (m : PyModule V) (has_tag : Option V)
    (filt : FilterArg V) (dct : List (CaseKey × CaseDataFromFunction V))
    (p : String × PyFunc V) : Except PyErr (List (CaseKey × CaseDataFromFunction V)) :=
  if pyStartsWith p.1 CASE_PREFIX then
    if (_get_code p.2).co_filename == m.file then
      if caseSelected has_tag filt.fn? p.2.tags then getCaseGettersIntoDict p.2 dct
      else .ok dct
    else .ok dct
  else .ok dct

/-- `sorted(cases_dct.keys())`. -/
def keySort (ks : List CaseKey) : List CaseKey := List.insertionSort keyLe ks

/-- `[cases_dct[k] for k in sorted(cases_dct.keys())]`. -/
def sortedDictValues {V : Type} (dct : List (CaseKey × CaseDataFromFunction V)) :
    List (CaseDataFromFunction V) :=
  (keySort (dct.map Prod.fst)).filterMap (fun k => pyGet keyEqB dct k)

/-- `extract_cases_from_module(module, has_tag, filter)`. -/
def extract_cases_from_module {V : Type} [DecidableEq V] (m : PyModule V)
    (has_tag : Option V) (filt : FilterArg V) :
    Except PyErr (List (CaseDataFromFunction V)) :=
  match filt with
  | .nonCallable => .error (.valueError filterNotCallableMsg)
  | _ => do
    let dct ← (getmembers m).foldlM (extractStep m has_tag filt) []
    .ok (sortedDictValues dct)

/-- Specification-side description of the discovered case functions: the
members of the module whose name starts with `case_` and whose code object's
file name equals the module's file. -/
def moduleCaseMembers {V : Type} (m : PyModule V) : List (PyFunc V) :=
  (getmembers m).filterMap
    (fun p =>
      if pyStartsWith p.1 CASE_PREFIX && ((_get_code p.2).co_filename == m.file) then some p.2
      else none)

/-- The discovered case functions that pass the tag/filter selection. -/
def selectedMembers {V : Type} [DecidableEq V] (m : PyModule V) (has_tag : Option V)
    (filt : FilterArg V) : List (PyFunc V) :=
  (moduleCaseMembers m).filter (fun f => caseSelected has_tag filt.fn? f.tags)

/-- Order on case functions by source line number. -/
def byLineno {V : Type} (a b : PyFunc V) : Prop :=
  a.code.co_firstlineno ≤ b.code.co_firstlineno

instance {V : Type} : DecidableRel (@byLineno V) :=
  fun a b => inferInstanceAs (Decidable (a.code.co_firstlineno ≤ b.code.co_firstlineno))

/-- Sort case functions by ascending source line number. -/
def sortByLineno {V : Type} (fs : List (PyFunc V)) : List (PyFunc V) :=
  List.insertionSort byLineno fs

/-- Specification-side restatement of `extract_cases_from_module`, following
the spec's words: the case getters built from the selected case functions of
the module, ordered by ascending source line number. -/
def extract_cases_from_module_spec {V : Type} [DecidableEq V] (m : PyModule V)
    (has_tag : Option V) (filt : FilterArg V) :
    Except PyErr (List (CaseDataFromFunction V)) :=
  match filt with
  | .nonCallable => .error (.valueError filterNotCallableMsg)
  | _ => do
    let gss ← (sortByLineno (selectedMembers m has_tag filt)).mapM _get_case_getter_s
    .ok gss.flatten

/-- The `cases` argument of `get_all_cases`: a single callable or a sequence. -/
inductive CasesArg (V : Type) where
  | single (f : PyFunc V)
  | seq (fs : List (PyFunc V))

/-- The `module` argument of `get_all_cases`: a single module (not iterable,
so iterating it raises `TypeError` and the code falls back to the single-module
branch) or an iterable of modules.  The `THIS_MODULE` marker, resolved through
`sys.modules`, is interpreter state outside the model. -/
inductive ModuleArg (V : Type) where
  | one (m : PyModule V)
  | many (ms : List (PyModule V))

/-- What `get_all_cases` returns per case: the getter itself, or
`pytest.param(getter, marks=...)` when the case function has pytest marks. -/
inductive PyParam (V : Type) where
  | plain (c : CaseDataFromFunction V)
  | param (c : CaseDataFromFunction V) (marks : List String)

/-- Error message of `get_all_cases` when both arguments are given. -/
def onlyOneMsg : String := "Only one of module and cases should be provided"

/-- Message of the `TypeError` Python raises when iterating `None`
(`get_all_cases` called with neither `cases` nor `module`). -/
def noneNotIterableMsg : String := "'NoneType' object is not iterable"

/-- Lines 546: wrap each getter carrying pytest marks into `pytest.param`. -/
def wrapMarkedCases {V : Type} (cs : List (CaseDataFromFunction V)) : List (PyParam V) :=
  cs.map (fun c => if c.get_marks.length == 0 then .plain c else .param c c.get_marks)

/-- `get_all_cases(cases, module, this_module_object, has_tag, filter)`. -/
def get_all_cases {V : Type} [DecidableEq V] (cases : Option (CasesArg V))
    (module : Option (ModuleArg V)) (has_tag : Option V) (filt : FilterArg V) :
    Except PyErr (List (PyParam V)) :=
  match module, cases with
  | some _, some _ => .error (.valueError onlyOneMsg)
  | none, some (.single f) => do
    let gs ← _get_case_getter_s f
    .ok (wrapMarkedCases gs)
  | none, some (.seq fs) => do
    let gss ← fs.mapM _get_case_getter_s
    .ok (wrapMarkedCases gss.flatten)
  | none, none => .error (.typeError noneNotIterableMsg)
  | some (.one m), none => do
    let cs ← extract_cases_from_module m has_tag filt
    .ok (wrapMarkedCases cs)
  | some (.many ms), none => do
    let css ← ms.mapM (fun m => extract_cases_from_module m has_tag filt)
    .ok (wrapMarkedCases css.flatten)

/-- `str` of a `pytest.param` value (a `ParameterSet` named tuple wrapping the
getter and its marks; marks are modelled by their display strings). -/
def parameterSetStr {V : Type} (c : CaseDataFromFunction V) (marks : List String) : String :=
  "ParameterSet(values=(" ++ c.reprStr ++ ",), marks=[" ++
  String.intercalate (", ") marks ++ "], id=None)"

/-- `str(c)` for an element of the list built by `get_all_cases`. -/
def PyParam.str {V : Type} : PyParam V → String
  | .plain c => c.str
  | .param c marks => parameterSetStr c marks

/-- The data of the `pytest.mark.parametrize` decorator created by `cases_data`:
the argument name, the case list, and the hardcoded ids `[str(c) for c in _cases]`. -/
structure ParametrizeDecorator (V : Type) where
  argname : String
  argvalues : List (PyParam V)
  ids : List String

/-- `cases_data(cases, module, case_data_argname, has_tag, filter)` applied to a
test function: the parametrize decorator it creates. -/
def cases_data {V : Type} [DecidableEq V] (cases : Option (CasesArg V))
    (module : Option (ModuleArg V)) (case_data_argname : String) (has_tag : Option V)
    (filt : FilterArg V) : Except PyErr (ParametrizeDecorator V) := do
  let cs ← get_all_cases cases module has_tag filt
  .ok ⟨case_data_argname, cs, cs.map PyParam.str⟩

/-- A Python value as passed through the fixture-parameter plumbing of
`decorate_pytest_fixture_plus`: a scalar, or a tuple (the parameter value of a
multi-name parametrize mark, which the wrapper unpacks with `zip`). -/
inductive FixVal (V : Type) where
  | scalar (v : V)
  | tup (vs : List (FixVal V))

/-- The `**args_and_kwargs` dict received by the wrapper: the entries under the
keys `args` and `kwargs`, and any remaining entries (`rest`), whose presence
makes `_get_arguments` raise. -/
structure ArgsAndKwargs (V : Type) where
  args : List (FixVal V)
  kwargs : List (String × FixVal V)
  rest : List (String × FixVal V)

/-- Error message of `_get_arguments` when extra entries remain. -/
def internalErrMsg : String := "Internal error - please file an issue in the github project page"

/-- Error message for a parametrize mark without parameter names (the source
string contains a stray un-formatted `%s`). -/
def emptyParamNamesMsg : String :=
  "Fixture function '%s' decorated with '@pytest_fixture_plus' has an empty parameter name in a @pytest.mark.parametrize mark"

/-- Message of the `IndexError` raised by `fixture_params[i]` out of range. -/
def tupleIndexMsg : String := "tuple index out of range"

/-- Message of the `TypeError` raised by `zip` on a non-iterable argument. -/
def zipIterMsg : String := "zip argument #2 must support iteration"

/-- The kwargs-filling loop of `_get_arguments` (lines 375-384): walk the
`params_map` entries; a single-name entry consumes one fixture parameter, a
multi-name entry unpacks one tuple-valued fixture parameter with `zip`,
incrementing `i` once per zipped pair. -/
def fillKwargs {V : Type} :
    List (String × List String) → List (FixVal V) → Nat → List (String × FixVal V) →
    Except PyErr (List (String × FixVal V))
  | [], _, _, kw => .ok kw
  | (_, olds) :: rest, fps, i, kw =>
    match olds with
    | [old] =>
      match fps[i]? with
      | some v => fillKwargs rest fps (i + 1) (pySet strBeq kw old v)
      | none => .error (.indexError tupleIndexMsg)
    | _ =>
      match fps[i]? with
      | some (.tup vs) =>
        fillKwargs rest fps (i + (olds.zip vs).length)
          ((olds.zip vs).foldl (fun acc p => pySet strBeq acc p.1 p.2) kw)
      | some (.scalar _) => .error (.typeError zipIterMsg)
      | none => .error (.indexError tupleIndexMsg)

/-- `_get_arguments(fixture_params, args_and_kwargs)` (lines 367-386): pop
`args` and `kwargs`, raise if anything else remains, then fill the kwargs from
the fixture parameters using the params map. -/
def _get_arguments {V : Type} (entries : List (String × List String))
    (fixture_params : List (FixVal V)) (aak : ArgsAndKwargs V) :
    Except PyErr (List (FixVal V) × List (String × FixVal V)) :=
  if aak.rest.length > 0 then .error (.valueError internalErrMsg)
  else do
    let kw ← fillKwargs entries fixture_params 0 aak.kwargs
    .ok (aak.args, kw)

/-- A fixture function: an ordinary function returning a value, or a generator
function yielding a sequence of values (`inspect.isgeneratorfunction`
distinguishes them). -/
inductive PyFixtureFunc (V : Type) where
  | normal (c : List (FixVal V) → List (String × FixVal V) → FixVal V)
  | genFn (c : List (FixVal V) → List (String × FixVal V) → List (FixVal V))

/-- `inspect.isgeneratorfunction` on a fixture function. -/
def PyFixtureFunc.isGeneratorFunction {V : Type} : PyFixtureFunc V → Bool
  | .normal _ => false
  | .genFn _ => true

/-- The wrapped fixture function built by `decorate_pytest_fixture_plus`: it
takes the new fixture parameters plus the packed `args`/`kwargs` dict, and can
raise (through `_get_arguments`). -/
inductive WrappedFixture (V : Type) where
  | normal (c : List (FixVal V) → ArgsAndKwargs V → Except PyErr (FixVal V))
  | genFn (c : List (FixVal V) → ArgsAndKwargs V → Except PyErr (List (FixVal V)))

/-- Is the wrapped fixture function a generator function? -/
def WrappedFixture.isGeneratorFunction {V : Type} : WrappedFixture V → Bool
  | .normal _ => false
  | .genFn _ => true

/-- The `for res in fixture_func(*args, **kwargs): yield res` loop of the
generator wrapper: re-yield every yielded value in order. -/
def yieldAll {V : Type} : List (FixVal V) → List (FixVal V)
  | [] => []
  | x :: xs => x :: yieldAll xs

/-- The two `wrapper` closures of `decorate_pytest_fixture_plus` (lines
388-413), composed with the decoration machinery.  Modelled from the spec for
the part outside `src/`: `my_decorate` (module `pytest_cases.decorator_hack`)
rewrites the declared parameter list and binds the decorated function as the
wrapper's first argument, so the wrapped function's call behaviour is that of
`wrapper(fixture_func, *fixture_params, **args_and_kwargs)`; the final
`pytest.fixture` / `yield_fixture` registration is host-framework state and
preserves the call behaviour. -/
def decorate_wrapper {V : Type} (ff : PyFixtureFunc V)
    (entries : List (String × List String)) : WrappedFixture V :=
  match ff with
  | .normal c => .normal (fun fps aak => do
      let ak ← _get_arguments entries fps aak
      .ok (c ak.1 ak.2))
  | .genFn c => .genFn (fun fps aak => do
      let ak ← _get_arguments entries fps aak
      .ok (yieldAll (c ak.1 ak.2)))

/-- The data of a `@pytest.mark.parametrize` mark found on the fixture
function: parameter names, values, ids. -/
structure PMark (V : Type) where
  param_names : List String
  param_values : List (FixVal V)
  param_ids : Option (List String)

/-- `gen_name + '_' + str(i)`. -/
def numberedName (g : String) (i : Nat) : String := g ++ ("_") ++ toString i

/-- The fixture-name disambiguation loop (lines 340-345): keep the generated
name if free, else try `gen_name_1`, `gen_name_2`, ... and use the first name
not in `dir(module)`.  The search is bounded by `taken.length + 1` candidates,
among which a free one always exists (`findFreeName_not_mem` below); the final
fallback arm is therefore never reached. -/
def findFreeName (genName : String) (taken : List String) : String :=
  if genName ∈ taken then
    match (List.range (taken.length + 1)).find?
        (fun j => decide (numberedName genName (j + 1) ∉ taken)) with
    | some j => numberedName genName (j + 1)
    | none => numberedName genName (taken.length + 1)
  else genName

/-- The (unreachable) duplicate-fixture error message; the module `repr` in the
source format string is elided. -/
def dupFixtureMsg (name : String) : String :=
  "The " ++ name ++ " fixture automatically generated by `@pytest_fixture_plus` already exists in module <module>. This should not happen given the automatic name generation"

/-- The parametrize-mark loop of `decorate_pytest_fixture_plus` (lines
327-360): for each mark, raise on an empty parameter-name list, generate the
param-fixture name `<fixture>__<p1>X<p2>...`, disambiguate it against
`dir(module)`, re-check it (the error branch is dead code), register the param
fixture in the module namespace, and record the params-map entry. -/
def processMarks {V : Type} (fixtureName : String) :
    List (PMark V) → List (String × List String) → List String →
    Except PyErr (List (String × List String) × List String)
  | [], pm, dir => .ok (pm, dir)
  | mrk :: rest, pm, dir =>
    if mrk.param_names.length < 1 then .error (.valueError emptyParamNamesMsg)
    else
      let gen_name := fixtureName ++ ("__") ++ String.intercalate ("X") mrk.param_names
      let nm := findFreeName gen_name dir
      if nm ∈ dir then .error (.valueError (dupFixtureMsg nm))
      else processMarks fixtureName rest (pm ++ [(nm, mrk.param_names)]) (dir ++ [nm])

/-- `decorate_pytest_fixture_plus(fixture_func, ...)`: process the parametrize
marks (creating the param fixtures in the module namespace), then wrap the
fixture function.  Returns the wrapped fixture function and the updated module
namespace. -/
def decorate_pytest_fixture_plus {V : Type} (ff : PyFixtureFunc V) (fixtureName : String)
    (marks : List (PMark V)) (moduleDir : List String) :
    Except PyErr (WrappedFixture V × List String) := do
  let pmdir ← processMarks fixtureName marks [] moduleDir
  .ok (decorate_wrapper ff pmdir.1, pmdir.2)

/-- The key/getter pairs that the generator loop of `_get_case_getter_s`
stores into `cases_dct`, starting at generated-case index `i`. -/
def genPairsFrom {V : Type} (f : PyFunc V) (g : GenSpec V) (n : Nat) :
    Nat → List (List V) → List (CaseKey × CaseDataFromFunction V)
  | _, [] => []
  | i, vals :: rest =>
    (genKey f.code.co_firstlineno i n,
      ⟨f, some (g.nameTemplate (pyDictZip g.paramIds vals)), pyDictZip g.paramIds vals⟩) ::
    genPairsFrom f g n (i + 1) rest

/-- The key/getter pairs that `_get_case_getter_s` stores into `cases_dct` for
a case function (one pair per generated case, or a single integer-keyed pair). -/
def memberPairs {V : Type} (f : PyFunc V) : List (CaseKey × CaseDataFromFunction V) :=
  match f.gen with
  | some g => genPairsFrom f g g.combos.length 0 g.combos
  | none => [(lineKey f.code.co_firstlineno, ⟨f, none, []⟩)]

/-- The case names generated by a case generator from the given combinations. -/
def genNamesOf {V : Type} (g : GenSpec V) (combos : List (List V)) : List String :=
  combos.map (fun vals => g.nameTemplate (pyDictZip g.paramIds vals))

/-- All case names generated by a case generator. -/
def genNames {V : Type} (g : GenSpec V) : List String := genNamesOf g g.combos

/-- The member selector applied by the loop of `extract_cases_from_module`:
`some f` exactly when the member is kept and selected. -/
def selectorOf {V : Type} [DecidableEq V] (m : PyModule V) (has_tag : Option V)
    (filt : FilterArg V) (p : String × PyFunc V) : Option (PyFunc V) :=
  Option.filter (fun f => caseSelected has_tag filt.fn? f.tags)
    (if pyStartsWith p.1 CASE_PREFIX && ((_get_code p.2).co_filename == m.file) then some p.2
     else none)

instance : IsTotal CaseKey keyLe := ⟨fun _ _ => Nat.le_total _ _⟩

instance : IsTrans CaseKey keyLe :=
  ⟨by
    intro a b c h1 h2
    have hb : 0 < b.den := Nat.succ_pos _
    have h1' : a.valNum * b.den * c.den ≤ b.valNum * a.den * c.den :=
      Nat.mul_le_mul_right _ h1
    have h2' : b.valNum * c.den * a.den ≤ c.valNum * b.den * a.den :=
      Nat.mul_le_mul_right _ h2
    have key : a.valNum * c.den * b.den ≤ c.valNum * a.den * b.den := by
      calc a.valNum * c.den * b.den = a.valNum * b.den * c.den := by ring
        _ ≤ b.valNum * a.den * c.den := h1'
        _ = b.valNum * c.den * a.den := by ring
        _ ≤ c.valNum * b.den * a.den := h2'
        _ = c.valNum * a.den * b.den := by ring
    exact Nat.le_of_mul_le_mul_right key hb⟩

instance {V : Type} : IsTotal (PyFunc V) byLineno := ⟨fun _ _ => Nat.le_total _ _⟩

instance {V : Type} : IsTrans (PyFunc V) byLineno := ⟨fun _ _ _ => Nat.le_trans⟩

/-- Name template of the example case generator (applies `str.format` to the
parameter dict). -/
def tmplW : List (String × Nat) → String :=
  fun d => ("gen_") ++ toString ((pyGet strBeq d ("i")).getD 0)

/-- Example case generator data: two combinations of the parameter `i`. -/
def genSpecW : GenSpec Nat := ⟨tmplW, ["i"], [[0], [1]]⟩

/-- Short-hand to build an example case function in file `mod.py`. -/
def fnW (nm : String) (L : Nat) (g : Option (GenSpec Nat)) : PyFunc Nat :=
  ⟨nm, ⟨"mod.py", L⟩, [], g, [], fun _ _ => 0⟩

/-- Example module: an unsorted member list with a plain case, a case
generator, a non-case function and a case function imported from another
file. -/
def modW : PyModule Nat :=
  ⟨"mod.py",
    [("other", fnW ("other") 1 none),
     ("case_b", fnW ("case_b") 10 none),
     ("case_gen", fnW ("case_gen") 5 (some genSpecW)),
     ("case_imported", ⟨"case_imported", ⟨"other.py", 3⟩, [], none, [], fun _ _ => 0⟩)]⟩

/-- The two distinct case functions of the counterexample module for case
collection: both sit on source line 7 (as the callables of
`case_a, case_b = (lambda: 0), (lambda: 0)` do). -/
def modC1X : PyModule Nat :=
  ⟨"mod.py",
    [("case_a", ⟨"case_a", ⟨"mod.py", 7⟩, [], none, [], fun _ _ => 0⟩),
     ("case_b", ⟨"case_b", ⟨"mod.py", 7⟩, [], none, [], fun _ _ => 0⟩)]⟩

/-- Name template of the counterexample case generator. -/
def tmplX : List (String × Nat) → String :=
  fun d => ("n") ++ toString ((pyGet strBeq d ("i")).getD 0)

/-- Counterexample case generator data: two combinations of the parameter `i`. -/
def genSpecX : GenSpec Nat := ⟨tmplX, ["i"], [[0], [1]]⟩

/-- Counterexample module for generated-case ordering: a case generator and a
plain case function that share source line 5. -/
def modC2X : PyModule Nat :=
  ⟨"mod.py",
    [("case_g", ⟨"case_g", ⟨"mod.py", 5⟩, [], some genSpecX, [], fun _ _ => 0⟩),
     ("case_p", ⟨"case_p", ⟨"mod.py", 5⟩, [], none, [], fun _ _ => 0⟩)]⟩

/-- Counterexample module for id generation: its only case function carries a
pytest mark. -/
def modC8X : PyModule Nat :=
  ⟨"mod.py",
    [("case_m", ⟨"case_m", ⟨"mod.py", 4⟩, [], none, ["MarkDecorator(mark=Mark(skip))"],
      fun _ _ => 0⟩)]⟩

/-- The parametrize decorator built by `cases_data` on the example module
(defined through the code under verification; used by the id-generation
witness). -/
def pdW : ParametrizeDecorator Nat :=
  (cases_data none (some (ModuleArg.one modW)) ("case_data") none FilterArg.noFilter).toOption.getD
    ⟨"", [], []⟩

/-- Example getter of the first generated case of `modW` (used by the
id-generation witness). -/
def cW8 : CaseDataFromFunction Nat :=
  ⟨fnW ("case_gen") 5 (some genSpecW), some ("gen_0"), [("i", 0)]⟩

/-- Example getter for the keyword-override witness: its stored function reads
the keyword `a`, and its stored generator parameters bind `a` to `1`. -/
def cW10 : CaseDataFromFunction Nat :=
  ⟨⟨"case_k", ⟨"mod.py", 3⟩, [], none, [],
    fun _ kw => (pyGet strBeq kw ("a")).getD 0⟩, none, [("a", 1)]⟩

/-- Example fixture function (a generator function) for the wrapper witness. -/
def ffW : PyFixtureFunc Nat :=
  .genFn (fun args kw =>
    (pyGet strBeq kw ("p")).getD (FixVal.scalar 0) ::
    (pyGet strBeq kw ("r")).getD (FixVal.scalar 0) :: args)

/-- Example parametrize marks on the fixture function: a single-parameter mark
and a two-parameter mark. -/
def marksW : List (PMark Nat) :=
  [⟨["p"], [FixVal.scalar 1], none⟩, ⟨["q", "r"], [], none⟩]

/-- Fixture parameter values for the wrapper witness: one scalar and one
two-element tuple. -/
def fpsW : List (FixVal Nat) :=
  [FixVal.scalar 7, FixVal.tup [FixVal.scalar 8, FixVal.scalar 9]]

/-- The packed `args`/`kwargs` of the wrapper witness. -/
def aakW : ArgsAndKwargs Nat := ⟨[FixVal.scalar 4], [], []⟩

theorem CaseKey.den_pos (k : CaseKey) : 0 < k.den := Nat.succ_pos _

theorem keyVal_eq_div (k : CaseKey) : keyVal k = (k.valNum : ℚ) / (k.den : ℚ) := by
  have hd : ((k.den : ℚ)) ≠ 0 := by
    exact_mod_cast Nat.pos_iff_ne_zero.mp k.den_pos
  rw [keyVal, CaseKey.valNum]
  push_cast
  field_simp

theorem keyLe_iff (a b : CaseKey) : keyLe a b ↔ keyVal a ≤ keyVal b := by
  rw [keyVal_eq_div, keyVal_eq_div,
    div_le_div_iff₀ (by exact_mod_cast a.den_pos) (by exact_mod_cast b.den_pos)]
  rw [keyLe]
  constructor <;> intro h <;> exact_mod_cast h

theorem keyLt_iff (a b : CaseKey) : keyLt a b ↔ keyVal a < keyVal b := by
  rw [keyVal_eq_div, keyVal_eq_div,
    div_lt_div_iff₀ (by exact_mod_cast a.den_pos) (by exact_mod_cast b.den_pos)]
  rw [keyLt]
  constructor <;> intro h <;> exact_mod_cast h

theorem keyEqB_iff (a b : CaseKey) : keyEqB a b = true ↔ keyVal a = keyVal b := by
  rw [keyVal_eq_div, keyVal_eq_div,
    div_eq_div_iff (by exact_mod_cast Nat.pos_iff_ne_zero.mp a.den_pos)
      (by exact_mod_cast Nat.pos_iff_ne_zero.mp b.den_pos)]
  rw [keyEqB, beq_iff_eq]
  constructor <;> intro h <;> exact_mod_cast h

theorem keyVal_lineKey (L : Nat) : keyVal (lineKey L) = (L : ℚ) := by
  simp [keyVal, lineKey, CaseKey.den]

theorem keyVal_genKey {n : Nat} (L i : Nat) (hn : 0 < n) :
    keyVal (genKey L i n) = (L : ℚ) + (i : ℚ) / (n : ℚ) := by
  show (L : ℚ) + (i : ℚ) / ((n - 1 + 1 : ℕ) : ℚ) = _
  rw [Nat.sub_add_cancel hn]

theorem keyVal_genKey_bounds {n : Nat} (L i : Nat) (hi : i < n) :
    (L : ℚ) ≤ keyVal (genKey L i n) ∧ keyVal (genKey L i n) < (L : ℚ) + 1 := by
  have hn : 0 < n := lt_of_le_of_lt (Nat.zero_le i) hi
  rw [keyVal_genKey L i hn]
  constructor
  · have h0 : (0 : ℚ) ≤ (i : ℚ) / (n : ℚ) := by positivity
    linarith
  · have h1 : (i : ℚ) / (n : ℚ) < 1 := by
      rw [div_lt_one (by exact_mod_cast hn)]
      exact_mod_cast hi
    linarith

theorem genKey_lt_genKey {n : Nat} (L i j : Nat) (hij : i < j) (hj : j < n) :
    keyLt (genKey L i n) (genKey L j n) := by
  have hn : 0 < n := lt_of_le_of_lt (Nat.zero_le j) hj
  rw [keyLt_iff, keyVal_genKey L i hn, keyVal_genKey L j hn]
  have hd : (i : ℚ) / (n : ℚ) < (j : ℚ) / (n : ℚ) := by
    apply div_lt_div_of_pos_right
    · exact_mod_cast hij
    · exact_mod_cast hn
  linarith

theorem genPairsFrom_map_snd {V : Type} (f : PyFunc V) (g : GenSpec V) (n : Nat) :
    ∀ (combos : List (List V)) (i : Nat),
      (genPairsFrom f g n i combos).map Prod.snd =
        combos.map (fun vals =>
          (⟨f, some (g.nameTemplate (pyDictZip g.paramIds vals)), pyDictZip g.paramIds vals⟩ :
            CaseDataFromFunction V))
  | [], _ => rfl
  | vals :: rest, i => by
    simp only [genPairsFrom, List.map_cons]
    rw [genPairsFrom_map_snd f g n rest (i + 1)]

theorem genPairsFrom_keys_shape {V : Type} (f : PyFunc V) (g : GenSpec V) (n : Nat) :
    ∀ (combos : List (List V)) (i : Nat) (k : CaseKey),
      k ∈ (genPairsFrom f g n i combos).map Prod.fst →
      ∃ j, i ≤ j ∧ j < i + combos.length ∧ k = genKey f.code.co_firstlineno j n
  | [], _, _, h => by simp [genPairsFrom] at h
  | vals :: rest, i, k, h => by
    simp only [genPairsFrom, List.map_cons, List.mem_cons] at h
    rcases h with h | h
    · exact ⟨i, le_refl i, by simp, h⟩
    · obtain ⟨j, hj1, hj2, hj3⟩ := genPairsFrom_keys_shape f g n rest (i + 1) k h
      exact ⟨j, by omega, by simp at hj2 ⊢; omega, hj3⟩

theorem genPairsFrom_keys_pairwise {V : Type} (f : PyFunc V) (g : GenSpec V) (n : Nat) :
    ∀ (combos : List (List V)) (i : Nat), i + combos.length ≤ n →
      ((genPairsFrom f g n i combos).map Prod.fst).Pairwise keyLt
  | [], _, _ => by simp [genPairsFrom]
  | vals :: rest, i, hle => by
    have hle' : i + (rest.length + 1) ≤ n := by simpa using hle
    simp only [genPairsFrom, List.map_cons]
    refine List.Pairwise.cons ?_ ?_
    · intro k hk
      obtain ⟨j, hj1, hj2, rfl⟩ := genPairsFrom_keys_shape f g n rest (i + 1) k hk
      exact genKey_lt_genKey _ i j (by omega) (by omega)
    · exact genPairsFrom_keys_pairwise f g n rest (i + 1) (by omega)

theorem memberPairs_snd {V : Type} (f : PyFunc V) (g : GenSpec V) (hg : f.gen = some g) :
    (memberPairs f).map Prod.snd =
      g.combos.map (fun vals =>
        (⟨f, some (g.nameTemplate (pyDictZip g.paramIds vals)), pyDictZip g.paramIds vals⟩ :
          CaseDataFromFunction V)) := by
  rw [memberPairs, hg]
  exact genPairsFrom_map_snd f g g.combos.length g.combos 0

theorem memberPairs_keys_bounds {V : Type} (f : PyFunc V) :
    ∀ k ∈ (memberPairs f).map Prod.fst,
      ((f.code.co_firstlineno : ℚ)) ≤ keyVal k ∧
        keyVal k < (f.code.co_firstlineno : ℚ) + 1 := by
  intro k hk
  rw [memberPairs] at hk
  cases hgen : f.gen with
  | none =>
    rw [hgen] at hk
    simp at hk
    subst hk
    rw [keyVal_lineKey]
    constructor
    · exact le_refl _
    · linarith
  | some g =>
    rw [hgen] at hk
    obtain ⟨j, _, hj2, rfl⟩ := genPairsFrom_keys_shape f g g.combos.length g.combos 0 k hk
    exact keyVal_genKey_bounds _ j (by omega)

theorem memberPairs_keys_pairwise {V : Type} (f : PyFunc V) :
    ((memberPairs f).map Prod.fst).Pairwise keyLt := by
  rw [memberPairs]
  cases hgen : f.gen with
  | none => simp
  | some g => exact genPairsFrom_keys_pairwise f g g.combos.length g.combos 0 (by omega)

theorem genLoopList_spec {V : Type} (f : PyFunc V) (g : GenSpec V) :
    ∀ (combos : List (List V)) (used : List String) (acc : List (CaseDataFromFunction V)),
      used.Nodup →
      (((used ++ genNamesOf g combos).Nodup →
          genLoopList f g combos used acc =
            .ok (acc ++ combos.map (fun vals =>
              ⟨f, some (g.nameTemplate (pyDictZip g.paramIds vals)), pyDictZip g.paramIds vals⟩))) ∧
        (¬ (used ++ genNamesOf g combos).Nodup →
          genLoopList f g combos used acc = .error (.valueError (dupNamesMsg f))))
  | [], used, acc, hu => by
    constructor
    · intro _
      simp [genLoopList]
    · intro h
      exact absurd (by simpa [genNamesOf] using hu) h
  | vals :: rest, used, acc, hu => by
    by_cases hmem : g.nameTemplate (pyDictZip g.paramIds vals) ∈ used
    · constructor
      · intro h
        exfalso
        rw [List.nodup_append] at h
        exact h.2.2 hmem (by simp [genNamesOf])
      · intro _
        simp only [genLoopList]
        rw [if_pos hmem]
    · have hu' : (used ++ [g.nameTemplate (pyDictZip g.paramIds vals)]).Nodup := by
        simp [List.nodup_append, hu, hmem]
      have ih := genLoopList_spec f g rest
        (used ++ [g.nameTemplate (pyDictZip g.paramIds vals)])
        (acc ++ [⟨f, some (g.nameTemplate (pyDictZip g.paramIds vals)),
          pyDictZip g.paramIds vals⟩]) hu'
      have hnames : (used ++ genNamesOf g (vals :: rest)) =
          ((used ++ [g.nameTemplate (pyDictZip g.paramIds vals)]) ++ genNamesOf g rest) := by
        simp [genNamesOf]
      constructor
      · intro h
        simp only [genLoopList]
        rw [if_neg hmem]
        rw [ih.1 (by rw [← hnames]; exact h)]
        simp
      · intro h
        simp only [genLoopList]
        rw [if_neg hmem]
        exact ih.2 (by rw [← hnames]; exact h)

theorem get_case_getter_s_gen_ok {V : Type} (f : PyFunc V) (g : GenSpec V)
    (hg : f.gen = some g) (h : (genNames g).Nodup) :
    _get_case_getter_s f =
      .ok (g.combos.map (fun vals =>
        ⟨f, some (g.nameTemplate (pyDictZip g.paramIds vals)), pyDictZip g.paramIds vals⟩)) := by
  rw [_get_case_getter_s, hg]
  have := (genLoopList_spec f g g.combos [] [] List.nodup_nil).1
    (by simpa [genNames] using h)
  simpa using this

theorem get_case_getter_s_gen_err {V : Type} (f : PyFunc V) (g : GenSpec V)
    (hg : f.gen = some g) (h : ¬ (genNames g).Nodup) :
    _get_case_getter_s f = .error (.valueError (dupNamesMsg f)) := by
  rw [_get_case_getter_s, hg]
  exact (genLoopList_spec f g g.combos [] [] List.nodup_nil).2
    (by simpa [genNames] using h)

theorem get_case_getter_s_eq_pairs {V : Type} (f : PyFunc V)
    (hok : exceptOk (_get_case_getter_s f) = true) :
    _get_case_getter_s f = .ok ((memberPairs f).map Prod.snd) := by
  cases hgen : f.gen with
  | none =>
    rw [_get_case_getter_s, hgen, memberPairs, hgen]
    rfl
  | some g =>
    by_cases h : (genNames g).Nodup
    · rw [get_case_getter_s_gen_ok f g hgen h, memberPairs_snd f g hgen]
    · rw [get_case_getter_s_gen_err f g hgen h] at hok
      exact absurd hok (by simp [exceptOk])

theorem pyHasKey_eq_false {κ β γ : Type} {beq : κ → κ → Bool} {val : κ → γ}
    (hv : ∀ a b, beq a b = true ↔ val a = val b) {d : List (κ × β)} {k : κ}
    (h : ∀ p ∈ d, val p.1 ≠ val k) : pyHasKey beq d k = false := by
  rw [pyHasKey, List.any_eq_false]
  intro p hp hb
  exact h p hp ((hv _ _).mp hb)

theorem pySet_fresh {κ β γ : Type} {beq : κ → κ → Bool} {val : κ → γ}
    (hv : ∀ a b, beq a b = true ↔ val a = val b) {d : List (κ × β)} {k : κ}
    (h : ∀ p ∈ d, val p.1 ≠ val k) (v : β) : pySet beq d k v = d ++ [(k, v)] := by
  rw [pySet, pyHasKey_eq_false hv h]
  simp

theorem pyGet_of_fresh {κ β γ : Type} {beq : κ → κ → Bool} {val : κ → γ}
    (hv : ∀ a b, beq a b = true ↔ val a = val b) {d : List (κ × β)} {k : κ}
    (h : ∀ p ∈ d, val p.1 ≠ val k) : pyGet beq d k = none := by
  rw [pyGet, List.find?_eq_none.mpr]
  · rfl
  · intro p hp hb
    exact h p hp ((hv _ _).mp hb)

theorem pyGet_cons {κ β : Type} (beq : κ → κ → Bool) (a : κ × β) (t : List (κ × β)) (k : κ) :
    pyGet beq (a :: t) k = if beq a.1 k then some a.2 else pyGet beq t k := by
  rw [pyGet, pyGet]
  by_cases hb : beq a.1 k = true
  · rw [List.find?_cons_of_pos (p := fun p => beq p.1 k) t hb, if_pos hb]
    rfl
  · rw [List.find?_cons_of_neg (p := fun p => beq p.1 k) t hb, if_neg hb]

theorem pyGet_of_mem {κ β γ : Type} {beq : κ → κ → Bool} {val : κ → γ}
    (hv : ∀ a b, beq a b = true ↔ val a = val b) :
    ∀ {d : List (κ × β)}, (d.map (fun p => val p.1)).Nodup →
      ∀ {k : κ} {v : β}, (k, v) ∈ d → pyGet beq d k = some v := by
  intro d
  induction d with
  | nil => intro _ k v hm; simp at hm
  | cons a t ih =>
    intro hnd k v hm
    rw [List.map_cons, List.nodup_cons] at hnd
    rw [pyGet_cons]
    by_cases hb : beq a.1 k = true
    · rw [if_pos hb]
      rcases List.mem_cons.mp hm with h | h
      · rw [← h]
      · exfalso
        apply hnd.1
        rw [(hv _ _).mp hb]
        exact List.mem_map.mpr ⟨(k, v), h, rfl⟩
    · rw [if_neg hb]
      rcases List.mem_cons.mp hm with h | h
      · exfalso
        apply hb
        rw [hv]
        rw [← h]
      · exact ih hnd.2 h

theorem pyGet_append {κ β : Type} (beq : κ → κ → Bool) (d1 d2 : List (κ × β)) (k : κ) :
    pyGet beq (d1 ++ d2) k = (pyGet beq d1 k).or (pyGet beq d2 k) := by
  rw [pyGet, pyGet, pyGet, List.find?_append]
  cases List.find? (fun p => beq p.1 k) d1 with
  | none => simp
  | some p => simp

theorem pyGet_replace_of_eq {κ β γ : Type} {beq : κ → κ → Bool} {val : κ → γ}
    (hv : ∀ a b, beq a b = true ↔ val a = val b) {a k : κ} (hak : val a = val k) (b : β) :
    ∀ {d : List (κ × β)}, pyHasKey beq d a = true →
      pyGet beq (d.map (fun p => if beq p.1 a then (p.1, b) else p)) k = some b := by
  intro d
  induction d with
  | nil => intro h; simp [pyHasKey] at h
  | cons q t ih =>
    intro h
    by_cases hq : beq q.1 a = true
    · rw [List.map_cons, if_pos hq, pyGet_cons]
      rw [if_pos]
      rw [hv, (hv _ _).mp hq, hak]
    · rw [List.map_cons, if_neg hq, pyGet_cons, if_neg]
      · apply ih
        rw [pyHasKey, List.any_cons, Bool.or_eq_true] at h
        rcases h with h | h
        · exact absurd h hq
        · rw [pyHasKey]
          exact h
      · intro hqk
        apply hq
        rw [hv, (hv _ _).mp hqk, hak]

theorem pyGet_replace_of_ne {κ β γ : Type} {beq : κ → κ → Bool} {val : κ → γ}
    (hv : ∀ a b, beq a b = true ↔ val a = val b) {a k : κ} (hak : val a ≠ val k) (b : β) :
    ∀ (d : List (κ × β)),
      pyGet beq (d.map (fun p => if beq p.1 a then (p.1, b) else p)) k = pyGet beq d k := by
  intro d
  induction d with
  | nil => rfl
  | cons q t ih =>
    by_cases hq : beq q.1 a = true
    · rw [List.map_cons, if_pos hq, pyGet_cons, pyGet_cons]
      have hqk : ¬ beq q.1 k = true := by
        intro hqk
        exact hak (((hv _ _).mp hq).symm.trans ((hv _ _).mp hqk))
      rw [if_neg hqk, if_neg hqk]
      exact ih
    · rw [List.map_cons, if_neg hq, pyGet_cons, pyGet_cons]
      by_cases hqk : beq q.1 k = true
      · rw [if_pos hqk, if_pos hqk]
      · rw [if_neg hqk, if_neg hqk]
        exact ih

theorem pyGet_pySet_of_eq {κ β γ : Type} {beq : κ → κ → Bool} {val : κ → γ}
    (hv : ∀ a b, beq a b = true ↔ val a = val b) {a k : κ} (hak : val a = val k) (b : β)
    (d : List (κ × β)) : pyGet beq (pySet beq d a b) k = some b := by
  rw [pySet]
  by_cases h : pyHasKey beq d a = true
  · rw [if_pos h]
    exact pyGet_replace_of_eq hv hak b h
  · rw [if_neg h, pyGet_append]
    have h1 : pyGet beq d k = none := by
      apply pyGet_of_fresh hv
      intro p hp hpk
      apply h
      rw [pyHasKey, List.any_eq_true]
      exact ⟨p, hp, (hv _ _).mpr (hpk.trans hak.symm)⟩
    rw [h1, Option.none_or, pyGet_cons, if_pos ((hv _ _).mpr hak)]

theorem pyGet_pySet_of_ne {κ β γ : Type} {beq : κ → κ → Bool} {val : κ → γ}
    (hv : ∀ a b, beq a b = true ↔ val a = val b) {a k : κ} (hak : val a ≠ val k) (b : β)
    (d : List (κ × β)) : pyGet beq (pySet beq d a b) k = pyGet beq d k := by
  rw [pySet]
  by_cases h : pyHasKey beq d a = true
  · rw [if_pos h]
    exact pyGet_replace_of_ne hv hak b d
  · rw [if_neg h, pyGet_append, pyGet_cons]
    have hbk : ¬ beq a k = true := fun hb => hak ((hv _ _).mp hb)
    rw [if_neg hbk]
    simp [pyGet]

theorem pyUpdate_lookup {κ β γ : Type} {beq : κ → κ → Bool} {val : κ → γ}
    (hv : ∀ a b, beq a b = true ↔ val a = val b) :
    ∀ (d2 d1 : List (κ × β)) (k : κ), (d2.map (fun p => val p.1)).Nodup →
      pyGet beq (pyUpdate beq d1 d2) k = (pyGet beq d2 k).or (pyGet beq d1 k)
  | [], d1, k, _ => by simp [pyUpdate, pyGet]
  | (a, b) :: t, d1, k, hnd => by
    rw [List.map_cons, List.nodup_cons] at hnd
    rw [show pyUpdate beq d1 ((a, b) :: t) = pyUpdate beq (pySet beq d1 a b) t from rfl]
    rw [pyUpdate_lookup hv t (pySet beq d1 a b) k hnd.2]
    rw [pyGet_cons]
    by_cases hak : val a = val k
    · have ht : pyGet beq t k = none := by
        apply pyGet_of_fresh hv
        intro p hp hpk
        apply hnd.1
        rw [hak, ← hpk]
        exact List.mem_map.mpr ⟨p, hp, rfl⟩
      rw [ht, Option.none_or, pyGet_pySet_of_eq hv hak, if_pos ((hv _ _).mpr hak)]
      rfl
    · have hbk : ¬ beq a k = true := fun hb => hak ((hv _ _).mp hb)
      rw [if_neg hbk, pyGet_pySet_of_ne hv hak]

theorem keyvals_nodup_of_pairwise {ks : List CaseKey} (h : ks.Pairwise keyLt) :
    (ks.map keyVal).Nodup := by
  rw [List.Nodup, List.pairwise_map]
  exact h.imp (fun hab => ne_of_lt ((keyLt_iff _ _).mp hab))

theorem genLoopDict_ok {V : Type} (f : PyFunc V) (g : GenSpec V) (n : Nat) :
    ∀ (combos : List (List V)) (i : Nat) (used : List String)
      (dct : List (CaseKey × CaseDataFromFunction V)),
      used.Nodup → (used ++ genNamesOf g combos).Nodup →
      (∀ p ∈ dct, ∀ k ∈ (genPairsFrom f g n i combos).map Prod.fst, keyVal p.1 ≠ keyVal k) →
      ((genPairsFrom f g n i combos).map Prod.fst).Pairwise keyLt →
      genLoopDict f g n i combos used dct = .ok (dct ++ genPairsFrom f g n i combos)
  | [], i, used, dct, _, _, _, _ => by simp [genLoopDict, genPairsFrom]
  | vals :: rest, i, used, dct, hu, hnames, hfresh, hpw => by
    have hmem : g.nameTemplate (pyDictZip g.paramIds vals) ∉ used := by
      rw [List.nodup_append] at hnames
      intro hin
      exact hnames.2.2 hin (by simp [genNamesOf])
    simp only [genLoopDict]
    rw [if_neg hmem]
    have hu2 : (used ++ [g.nameTemplate (pyDictZip g.paramIds vals)]).Nodup := by
      simp [List.nodup_append, hu, hmem]
    have hnames2 : ((used ++ [g.nameTemplate (pyDictZip g.paramIds vals)]) ++
        genNamesOf g rest).Nodup := by
      have he : (used ++ [g.nameTemplate (pyDictZip g.paramIds vals)]) ++ genNamesOf g rest =
          used ++ genNamesOf g (vals :: rest) := by
        simp [genNamesOf]
      rw [he]
      exact hnames
    have hpwc := List.pairwise_cons.mp (by
      simpa only [genPairsFrom, List.map_cons] using hpw)
    have hkey : ∀ p ∈ dct, keyVal p.1 ≠ keyVal (genKey f.code.co_firstlineno i n) := by
      intro p hp
      exact hfresh p hp _ (by simp [genPairsFrom])
    rw [pySet_fresh keyEqB_iff hkey]
    have hfr : ∀ p ∈ dct ++ [(genKey f.code.co_firstlineno i n,
        (⟨f, some (g.nameTemplate (pyDictZip g.paramIds vals)),
          pyDictZip g.paramIds vals⟩ : CaseDataFromFunction V))],
        ∀ k ∈ (genPairsFrom f g n (i + 1) rest).map Prod.fst, keyVal p.1 ≠ keyVal k := by
      intro p hp k hk
      rcases List.mem_append.mp hp with hp | hp
      · apply hfresh p hp k
        simp only [genPairsFrom, List.map_cons]
        exact List.mem_cons_of_mem _ hk
      · have hpk : p.1 = genKey f.code.co_firstlineno i n := by
          simp at hp
          rw [hp]
        rw [hpk]
        exact ne_of_lt ((keyLt_iff _ _).mp (hpwc.1 k hk))
    rw [genLoopDict_ok f g n rest (i + 1)
      (used ++ [g.nameTemplate (pyDictZip g.paramIds vals)]) _ hu2 hnames2 hfr hpwc.2]
    simp [genPairsFrom]

theorem getCaseGettersIntoDict_ok {V : Type} (f : PyFunc V)
    (dct : List (CaseKey × CaseDataFromFunction V))
    (hok : exceptOk (_get_case_getter_s f) = true)
    (hfresh : ∀ p ∈ dct, ∀ k ∈ (memberPairs f).map Prod.fst, keyVal p.1 ≠ keyVal k) :
    getCaseGettersIntoDict f dct = .ok (dct ++ memberPairs f) := by
  cases hgen : f.gen with
  | none =>
    rw [getCaseGettersIntoDict, hgen]
    rw [show memberPairs f = [(lineKey f.code.co_firstlineno,
      (⟨f, none, []⟩ : CaseDataFromFunction V))] from by rw [memberPairs, hgen]]
    rw [pySet_fresh keyEqB_iff]
    intro p hp
    apply hfresh p hp
    rw [show memberPairs f = [(lineKey f.code.co_firstlineno,
      (⟨f, none, []⟩ : CaseDataFromFunction V))] from by rw [memberPairs, hgen]]
    simp
  | some g =>
    have hnodup : (genNames g).Nodup := by
      by_contra h
      rw [get_case_getter_s_gen_err f g hgen h] at hok
      simp [exceptOk] at hok
    have hmp : memberPairs f = genPairsFrom f g g.combos.length 0 g.combos := by
      rw [memberPairs, hgen]
    rw [getCaseGettersIntoDict, hgen, hmp]
    apply genLoopDict_ok f g g.combos.length g.combos 0 [] dct List.nodup_nil
      (by simpa [genNames] using hnodup)
      (by rw [← hmp]; exact hfresh)
      (by rw [← hmp]; exact memberPairs_keys_pairwise f)

theorem selectedMembers_eq_filterMap {V : Type} [DecidableEq V] (m : PyModule V)
    (ht : Option V) (fl : FilterArg V) :
    selectedMembers m ht fl = (getmembers m).filterMap (selectorOf m ht fl) := by
  rw [selectedMembers, moduleCaseMembers, List.filter_filterMap]
  rfl

theorem extractStep_eq {V : Type} [DecidableEq V] (m : PyModule V) (ht : Option V)
    (fl : FilterArg V) (dct : List (CaseKey × CaseDataFromFunction V))
    (p : String × PyFunc V) :
    extractStep m ht fl dct p =
      match selectorOf m ht fl p with
      | some f => getCaseGettersIntoDict f dct
      | none => .ok dct := by
  by_cases h1 : pyStartsWith p.1 CASE_PREFIX = true
  · by_cases h2 : ((_get_code p.2).co_filename == m.file) = true
    · by_cases h3 : caseSelected ht fl.fn? p.2.tags = true
      · simp [extractStep, selectorOf, Option.filter, h1, h2, h3]
      · simp [extractStep, selectorOf, Option.filter, h1, h2, h3]
    · simp [extractStep, selectorOf, h1, h2]
  · simp [extractStep, selectorOf, h1]

theorem extract_fold {V : Type} [DecidableEq V] (m : PyModule V) (ht : Option V)
    (fl : FilterArg V) :
    ∀ (ps : List (String × PyFunc V)) (dct : List (CaseKey × CaseDataFromFunction V)),
      (∀ f ∈ ps.filterMap (selectorOf m ht fl), exceptOk (_get_case_getter_s f) = true) →
      ((dct.map (fun p => keyVal p.1)) ++
        ((ps.filterMap (selectorOf m ht fl)).flatMap
          (fun f => (memberPairs f).map (fun p => keyVal p.1)))).Nodup →
      List.foldlM (extractStep m ht fl) dct ps =
        .ok (dct ++ (ps.filterMap (selectorOf m ht fl)).flatMap memberPairs)
  | [], dct, _, _ => by
    simp only [List.filterMap_nil, List.flatMap_nil, List.append_nil, List.foldlM_nil]
    rfl
  | p :: t, dct, hok, hnd => by
    cases hsel : selectorOf m ht fl p with
    | none =>
      have hstep : extractStep m ht fl dct p = .ok dct := by
        rw [extractStep_eq, hsel]
      have hfm : (p :: t).filterMap (selectorOf m ht fl) = t.filterMap (selectorOf m ht fl) := by
        rw [List.filterMap_cons, hsel]
      rw [hfm] at hok hnd ⊢
      rw [List.foldlM_cons, hstep]
      rw [show ((Except.ok dct : Except PyErr _) >>= fun d =>
        List.foldlM (extractStep m ht fl) d t) =
        List.foldlM (extractStep m ht fl) dct t from rfl]
      exact extract_fold m ht fl t dct hok hnd
    | some f =>
      have hstep : extractStep m ht fl dct p = getCaseGettersIntoDict f dct := by
        rw [extractStep_eq, hsel]
      have hfm : (p :: t).filterMap (selectorOf m ht fl) =
          f :: t.filterMap (selectorOf m ht fl) := by
        rw [List.filterMap_cons, hsel]
      rw [hfm] at hok hnd ⊢
      rw [List.flatMap_cons] at hnd ⊢
      have hok_f : exceptOk (_get_case_getter_s f) = true := hok f (by simp)
      have hfresh : ∀ q ∈ dct, ∀ k ∈ (memberPairs f).map Prod.fst,
          keyVal q.1 ≠ keyVal k := by
        intro q hq k hk
        rw [List.nodup_append] at hnd
        intro he
        apply hnd.2.2 (List.mem_map.mpr ⟨q, hq, rfl⟩)
        rw [he]
        apply List.mem_append.mpr
        left
        obtain ⟨q2, hq2, hq2e⟩ := List.mem_map.mp hk
        exact List.mem_map.mpr ⟨q2, hq2, by rw [hq2e]⟩
      rw [List.foldlM_cons, hstep, getCaseGettersIntoDict_ok f dct hok_f hfresh]
      rw [show ((Except.ok (dct ++ memberPairs f) : Except PyErr _) >>= fun d =>
        List.foldlM (extractStep m ht fl) d t) =
        List.foldlM (extractStep m ht fl) (dct ++ memberPairs f) t from rfl]
      rw [extract_fold m ht fl t (dct ++ memberPairs f)
        (fun f2 hf2 => hok f2 (List.mem_cons_of_mem _ hf2))
        (by simpa [List.map_append, List.append_assoc] using hnd)]
      simp [List.append_assoc]

theorem keyLe_refl (a : CaseKey) : keyLe a a := Nat.le_refl _

theorem keyLe_of_keyLt {a b : CaseKey} (h : keyLt a b) : keyLe a b := Nat.le_of_lt h

theorem map_keyval_fst {α : Type} (l : List (CaseKey × α)) :
    l.map (fun p => keyVal p.1) = (l.map Prod.fst).map keyVal := by
  rw [List.map_map]
  rfl

theorem memberPairs_vals_disjoint {V : Type} (a b : PyFunc V)
    (h : a.code.co_firstlineno ≠ b.code.co_firstlineno) :
    List.Disjoint ((memberPairs a).map (fun p => keyVal p.1))
      ((memberPairs b).map (fun p => keyVal p.1)) := by
  intro x hxa hxb
  obtain ⟨pa, hpa, hea⟩ := List.mem_map.mp hxa
  obtain ⟨pb, hpb, heb⟩ := List.mem_map.mp hxb
  have ba := memberPairs_keys_bounds a pa.1 (List.mem_map.mpr ⟨pa, hpa, rfl⟩)
  have bb := memberPairs_keys_bounds b pb.1 (List.mem_map.mpr ⟨pb, hpb, rfl⟩)
  rw [hea] at ba
  rw [heb] at bb
  rcases Nat.lt_or_ge a.code.co_firstlineno b.code.co_firstlineno with hlt | hge
  · have hc : ((a.code.co_firstlineno : ℚ)) + 1 ≤ (b.code.co_firstlineno : ℚ) := by
      exact_mod_cast Nat.succ_le_of_lt hlt
    linarith [ba.1, ba.2, bb.1, bb.2]
  · have hlt2 : b.code.co_firstlineno < a.code.co_firstlineno :=
      lt_of_le_of_ne hge (Ne.symm h)
    have hc : ((b.code.co_firstlineno : ℚ)) + 1 ≤ (a.code.co_firstlineno : ℚ) := by
      exact_mod_cast Nat.succ_le_of_lt hlt2
    linarith [ba.1, ba.2, bb.1, bb.2]

theorem selected_keyvals_nodup {V : Type} (sel : List (PyFunc V))
    (H1 : (sel.map (fun f => f.code.co_firstlineno)).Nodup) :
    (sel.flatMap (fun f => (memberPairs f).map (fun p => keyVal p.1))).Nodup := by
  rw [List.nodup_flatMap]
  constructor
  · intro f _
    rw [map_keyval_fst]
    exact keyvals_nodup_of_pairwise (memberPairs_keys_pairwise f)
  · have hpw : sel.Pairwise (fun a b => a.code.co_firstlineno ≠ b.code.co_firstlineno) := by
      rw [List.Nodup, List.pairwise_map] at H1
      exact H1
    exact hpw.imp (fun h => memberPairs_vals_disjoint _ _ h)

theorem sorted_perm_unique :
    ∀ {l₁ l₂ : List CaseKey}, l₁.Perm l₂ → l₁.Sorted keyLe → l₂.Sorted keyLe →
      (l₁.map keyVal).Nodup → l₁ = l₂
  | [], l₂, p, _, _, _ => p.nil_eq
  | a :: t₁, [], p, _, _, _ => by cases p.eq_nil
  | a :: t₁, b :: t₂, p, s₁, s₂, nd => by
    rw [List.sorted_cons] at s₁ s₂
    have hamem : a ∈ b :: t₂ := p.subset (List.mem_cons_self a t₁)
    have hbmem : b ∈ a :: t₁ := p.symm.subset (List.mem_cons_self b t₂)
    have h1 : keyLe a b := by
      rcases List.mem_cons.mp hbmem with h | h
      · rw [h]
        exact keyLe_refl a
      · exact s₁.1 b h
    have h2 : keyLe b a := by
      rcases List.mem_cons.mp hamem with h | h
      · rw [h]
        exact keyLe_refl b
      · exact s₂.1 a h
    have hv : keyVal a = keyVal b :=
      le_antisymm ((keyLe_iff a b).mp h1) ((keyLe_iff b a).mp h2)
    have hab : a = b :=
      List.inj_on_of_nodup_map nd (List.mem_cons_self a t₁) hbmem hv
    subst hab
    have p2 : t₁.Perm t₂ := p.cons_inv
    have ndt : (t₁.map keyVal).Nodup := (List.nodup_cons.mp (by simpa using nd)).2
    rw [sorted_perm_unique p2 s₁.2 s₂.2 ndt]

theorem filterMap_get_pairs {κ β : Type} (beq : κ → κ → Bool) (d : List (κ × β)) :
    ∀ (q : List (κ × β)), (∀ p ∈ q, pyGet beq d p.1 = some p.2) →
      (q.map Prod.fst).filterMap (fun k => pyGet beq d k) = q.map Prod.snd
  | [], _ => rfl
  | p :: t, h => by
    rw [List.map_cons, List.map_cons, List.filterMap_cons]
    rw [h p (List.mem_cons_self p t)]
    rw [filterMap_get_pairs beq d t (fun p2 hp2 => h p2 (List.mem_cons_of_mem _ hp2))]

theorem mapM_getters_ok {V : Type} :
    ∀ (l : List (PyFunc V)), (∀ f ∈ l, exceptOk (_get_case_getter_s f) = true) →
      l.mapM _get_case_getter_s = .ok (l.map (fun f => (memberPairs f).map Prod.snd))
  | [], _ => rfl
  | f :: t, h => by
    have hf := get_case_getter_s_eq_pairs f (h f (List.mem_cons_self f t))
    have ht := mapM_getters_ok t (fun f2 hf2 => h f2 (List.mem_cons_of_mem _ hf2))
    simp only [List.mapM_cons, hf, ht]
    rfl

theorem qfst_pairwise {V : Type} (sel : List (PyFunc V))
    (H1 : (sel.map (fun f => f.code.co_firstlineno)).Nodup) :
    (((sortByLineno sel).flatMap memberPairs).map Prod.fst).Pairwise keyLt := by
  rw [List.map_flatMap, List.flatMap_def, List.pairwise_flatten]
  constructor
  · intro l hl
    obtain ⟨f, _, rfl⟩ := List.mem_map.mp hl
    exact memberPairs_keys_pairwise f
  · rw [List.pairwise_map]
    have hsorted : (sortByLineno sel).Pairwise byLineno :=
      List.sorted_insertionSort byLineno sel
    have hnd : ((sortByLineno sel).map (fun f => f.code.co_firstlineno)).Nodup := by
      refine (List.Perm.nodup_iff ?_).mpr H1
      exact (List.perm_insertionSort byLineno sel).map _
    have hne : (sortByLineno sel).Pairwise
        (fun a b => a.code.co_firstlineno ≠ b.code.co_firstlineno) := by
      rw [List.Nodup, List.pairwise_map] at hnd
      exact hnd
    have hlt : (sortByLineno sel).Pairwise
        (fun a b => a.code.co_firstlineno < b.code.co_firstlineno) :=
      (hsorted.and hne).imp (fun h => lt_of_le_of_ne h.1 h.2)
    refine hlt.imp ?_
    intro a b hab x hx y hy
    rw [keyLt_iff]
    have bx := memberPairs_keys_bounds a x hx
    have byy := memberPairs_keys_bounds b y hy
    have hc : ((a.code.co_firstlineno : ℚ)) + 1 ≤ (b.code.co_firstlineno : ℚ) := by
      exact_mod_cast Nat.succ_le_of_lt hab
    linarith [bx.2, byy.1]

theorem sortedDictValues_eq_sorted {V : Type} (sel : List (PyFunc V))
    (H1 : (sel.map (fun f => f.code.co_firstlineno)).Nodup) :
    sortedDictValues (sel.flatMap memberPairs) =
      ((sortByLineno sel).flatMap memberPairs).map Prod.snd := by
  have hperm : ((sortByLineno sel).flatMap memberPairs).Perm (sel.flatMap memberPairs) :=
    List.Perm.flatMap_right memberPairs (List.perm_insertionSort byLineno sel)
  have KN : ((sel.flatMap memberPairs).map (fun p => keyVal p.1)).Nodup := by
    have h := selected_keyvals_nodup sel H1
    rw [List.map_flatMap]
    exact h
  have hQpw := qfst_pairwise sel H1
  have hS : keySort ((sel.flatMap memberPairs).map Prod.fst) =
      ((sortByLineno sel).flatMap memberPairs).map Prod.fst := by
    apply sorted_perm_unique
    · exact (List.perm_insertionSort keyLe _).trans (hperm.map Prod.fst).symm
    · exact List.sorted_insertionSort keyLe _
    · exact hQpw.imp (fun h => keyLe_of_keyLt h)
    · refine (List.Perm.nodup_iff ((List.perm_insertionSort keyLe _).map keyVal)).mpr ?_
      rw [← map_keyval_fst]
      exact KN
  rw [sortedDictValues, keySort, ← keySort, hS]
  apply filterMap_get_pairs
  intro p hp
  apply pyGet_of_mem keyEqB_iff KN
  exact hperm.subset hp

theorem extract_unfold {V : Type} [DecidableEq V] (m : PyModule V) (ht : Option V)
    (fl : FilterArg V) (hfl : fl ≠ FilterArg.nonCallable) :
    extract_cases_from_module m ht fl =
      (List.foldlM (extractStep m ht fl) [] (getmembers m) >>= fun dct =>
        .ok (sortedDictValues dct)) := by
  cases fl with
  | noFilter => rfl
  | nonCallable => exact absurd rfl hfl
  | callable p => rfl

theorem extract_spec_unfold {V : Type} [DecidableEq V] (m : PyModule V) (ht : Option V)
    (fl : FilterArg V) (hfl : fl ≠ FilterArg.nonCallable) :
    extract_cases_from_module_spec m ht fl =
      ((sortByLineno (selectedMembers m ht fl)).mapM _get_case_getter_s >>= fun gss =>
        .ok gss.flatten) := by
  cases fl with
  | noFilter => rfl
  | nonCallable => exact absurd rfl hfl
  | callable p => rfl

theorem extract_eq_ok {V : Type} [DecidableEq V] (m : PyModule V) (ht : Option V)
    (fl : FilterArg V) (hfl : fl ≠ FilterArg.nonCallable)
    (H1 : ((selectedMembers m ht fl).map (fun f => f.code.co_firstlineno)).Nodup)
    (H2 : ∀ f ∈ selectedMembers m ht fl, exceptOk (_get_case_getter_s f) = true) :
    extract_cases_from_module m ht fl =
      .ok (((sortByLineno (selectedMembers m ht fl)).flatMap memberPairs).map Prod.snd) ∧
    extract_cases_from_module m ht fl = extract_cases_from_module_spec m ht fl := by
  have hb := selectedMembers_eq_filterMap m ht fl
  have hfold := extract_fold m ht fl (getmembers m) []
    (by rw [← hb]; exact H2)
    (by
      rw [← hb]
      simpa using selected_keyvals_nodup (selectedMembers m ht fl) H1)
  rw [← hb] at hfold
  have h1 : extract_cases_from_module m ht fl =
      .ok (sortedDictValues ((selectedMembers m ht fl).flatMap memberPairs)) := by
    rw [extract_unfold m ht fl hfl, hfold]
    rw [List.nil_append]
    rfl
  have h2 := sortedDictValues_eq_sorted (selectedMembers m ht fl) H1
  constructor
  · rw [h1, h2]
  · rw [h1, h2, extract_spec_unfold m ht fl hfl]
    have hsortok : ∀ f ∈ sortByLineno (selectedMembers m ht fl),
        exceptOk (_get_case_getter_s f) = true :=
      fun f hf => H2 f ((List.perm_insertionSort byLineno _).subset hf)
    rw [mapM_getters_ok _ hsortok]
    rw [show ((Except.ok ((sortByLineno (selectedMembers m ht fl)).map
        (fun f => (memberPairs f).map Prod.snd)) : Except PyErr _) >>= fun gss =>
        Except.ok gss.flatten) =
      Except.ok ((sortByLineno (selectedMembers m ht fl)).map
        (fun f => (memberPairs f).map Prod.snd)).flatten from rfl]
    rw [List.map_flatMap, List.flatMap_def]

theorem selectedMembers_none {V : Type} [DecidableEq V] (m : PyModule V) :
    selectedMembers m none FilterArg.noFilter = moduleCaseMembers m := by
  rw [selectedMembers]
  exact List.filter_eq_self.mpr (fun a _ => rfl)

theorem genPairsFrom_fst_eq {V : Type} (f : PyFunc V) (g : GenSpec V) (n : Nat) :
    ∀ (combos : List (List V)) (i : Nat),
      (genPairsFrom f g n i combos).map Prod.fst =
        (List.range' i combos.length).map (fun j => genKey f.code.co_firstlineno j n)
  | [], _ => rfl
  | vals :: rest, i => by
    simp only [genPairsFrom, List.map_cons, List.length_cons, List.range'_succ]
    rw [genPairsFrom_fst_eq f g n rest (i + 1)]

theorem sorted_sel_pairwise_lt {V : Type} (sel : List (PyFunc V))
    (H1 : (sel.map (fun f => f.code.co_firstlineno)).Nodup) :
    (sortByLineno sel).Pairwise
      (fun a b => a.code.co_firstlineno < b.code.co_firstlineno) := by
  have hsorted : (sortByLineno sel).Pairwise byLineno :=
    List.sorted_insertionSort byLineno sel
  have hnd : ((sortByLineno sel).map (fun f => f.code.co_firstlineno)).Nodup := by
    refine (List.Perm.nodup_iff ?_).mpr H1
    exact (List.perm_insertionSort byLineno sel).map _
  have hne : (sortByLineno sel).Pairwise
      (fun a b => a.code.co_firstlineno ≠ b.code.co_firstlineno) := by
    rw [List.Nodup, List.pairwise_map] at hnd
    exact hnd
  exact (hsorted.and hne).imp (fun h => lt_of_le_of_ne h.1 h.2)

theorem sorted_split {V : Type} :
    ∀ {l : List (PyFunc V)},
      l.Pairwise (fun a b => a.code.co_firstlineno < b.code.co_firstlineno) →
      ∀ {x : PyFunc V}, x ∈ l →
      l = l.filter (fun a => a.code.co_firstlineno < x.code.co_firstlineno) ++
        x :: l.filter (fun a => x.code.co_firstlineno < a.code.co_firstlineno) := by
  intro l
  induction l with
  | nil => intro _ x hx; cases hx
  | cons h t ih =>
    intro hpw x hx
    rw [List.pairwise_cons] at hpw
    rcases List.mem_cons.mp hx with rfl | hxt
    · have h1 : (x :: t).filter
          (fun a => decide (a.code.co_firstlineno < x.code.co_firstlineno)) = [] := by
        rw [List.filter_cons_of_neg (by simp)]
        rw [List.filter_eq_nil_iff]
        intro a ha
        simp only [decide_eq_true_eq]
        exact fun hlt => absurd (hpw.1 a ha) (by omega)
      have h2 : (x :: t).filter
          (fun a => decide (x.code.co_firstlineno < a.code.co_firstlineno)) = t := by
        rw [List.filter_cons_of_neg (by simp)]
        rw [List.filter_eq_self]
        intro a ha
        simp only [decide_eq_true_eq]
        exact hpw.1 a ha
      rw [h1, h2, List.nil_append]
    · have hlt : h.code.co_firstlineno < x.code.co_firstlineno := hpw.1 x hxt
      rw [List.filter_cons_of_pos (by simpa using hlt),
        List.filter_cons_of_neg (by simp; omega)]
      rw [List.cons_append]
      rw [← ih hpw.2 hxt]

/-- Claim C1, as amended: for every module whose selected case callables have
pairwise distinct first line numbers and whose case generators all produce
distinct generated names, `extract_cases_from_module` (with no tag and no
filter) returns exactly the case getters built from the callables of the
module whose name starts with `case_` and whose code object's file name equals
the module's file, ordered by ascending source line number of the case
functions (`extract_cases_from_module_spec` is that specification, and with no
tag and no filter the selected members are exactly those callables). -/
theorem claim_C1 {V : Type} [DecidableEq V] (m : PyModule V)
    (H1 : ((moduleCaseMembers m).map (fun f => f.code.co_firstlineno)).Nodup)
    (H2 : ∀ f ∈ moduleCaseMembers m, exceptOk (_get_case_getter_s f) = true) :
    extract_cases_from_module m none FilterArg.noFilter =
      extract_cases_from_module_spec m none FilterArg.noFilter ∧
    selectedMembers m none FilterArg.noFilter = moduleCaseMembers m := by
  have hsel := selectedMembers_none m
  refine ⟨?_, hsel⟩
  exact (extract_eq_ok m none FilterArg.noFilter (fun h => FilterArg.noConfusion h)
    (by rw [hsel]; exact H1) (by rw [hsel]; exact H2)).2

/-- Witness for claim C1: the amended claim applied to the example module. -/
theorem claim_C1_witness :
    extract_cases_from_module modW none FilterArg.noFilter =
      extract_cases_from_module_spec modW none FilterArg.noFilter ∧
    selectedMembers modW none FilterArg.noFilter = moduleCaseMembers modW :=
  claim_C1 modW (by decide) (by decide)

/-- Counterexample to claim C1 as stated: in `modC1X` two distinct case
callables (`case_a` and `case_b`) share first line number 7, both are
discovered, yet the returned list holds a single getter (the dict keyed by
line number collapses them), not the getters of both callables. -/
theorem claim_C1_counterexample :
    (moduleCaseMembers modC1X).map PyFunc.name = ["case_a", "case_b"] ∧
    Except.map (List.map CaseDataFromFunction.str)
      (extract_cases_from_module modC1X none FilterArg.noFilter) = .ok ["case_b"] :=
  ⟨rfl, rfl⟩

/-- Claim C2, as amended: for a selected case generator function with `n > 0`
parameter-value combinations, `_get_case_getter_s` (dict mode) stores one case
getter per combination, the i-th under the key `first_line_number + i / n`
(exact rational division, idealizing the float); and provided the selected
case callables have pairwise distinct first line numbers and all generators
succeed, in the list returned by `extract_cases_from_module` the `n` generated
cases appear consecutively, in the order of the parameter-value combinations,
after every case function with a strictly smaller first line number and before
every case function with a strictly greater first line number. -/
theorem claim_C2 {V : Type} [DecidableEq V] (m : PyModule V) (f : PyFunc V) (g : GenSpec V)
    (hmem : f ∈ selectedMembers m none FilterArg.noFilter)
    (hg : f.gen = some g) (hn : 0 < g.combos.length)
    (H1 : ((selectedMembers m none FilterArg.noFilter).map
      (fun h => h.code.co_firstlineno)).Nodup)
    (H2 : ∀ h ∈ selectedMembers m none FilterArg.noFilter,
      exceptOk (_get_case_getter_s h) = true) :
    getCaseGettersIntoDict f [] = .ok (memberPairs f) ∧
    (memberPairs f).map (fun p => keyVal p.1) =
      (List.range g.combos.length).map (fun i : ℕ =>
        (f.code.co_firstlineno : ℚ) + (i : ℚ) / (g.combos.length : ℚ)) ∧
    (memberPairs f).map Prod.snd = g.combos.map (fun vals =>
      ⟨f, some (g.nameTemplate (pyDictZip g.paramIds vals)), pyDictZip g.paramIds vals⟩) ∧
    extract_cases_from_module m none FilterArg.noFilter =
      .ok ((((sortByLineno (selectedMembers m none FilterArg.noFilter)).filter
          (fun h => h.code.co_firstlineno < f.code.co_firstlineno)).flatMap
          (fun h => (memberPairs h).map Prod.snd)) ++
        ((memberPairs f).map Prod.snd ++
        (((sortByLineno (selectedMembers m none FilterArg.noFilter)).filter
          (fun h => f.code.co_firstlineno < h.code.co_firstlineno)).flatMap
          (fun h => (memberPairs h).map Prod.snd)))) := by
  have hok := H2 f hmem
  have hmp : memberPairs f = genPairsFrom f g g.combos.length 0 g.combos := by
    rw [memberPairs, hg]
  refine ⟨?_, ?_, memberPairs_snd f g hg, ?_⟩
  · have h := getCaseGettersIntoDict_ok f [] hok (by intro p hp; cases hp)
    rw [h, List.nil_append]
  · rw [map_keyval_fst, hmp, genPairsFrom_fst_eq f g g.combos.length g.combos 0,
      List.map_map, List.range_eq_range']
    apply List.map_congr_left
    intro j _
    exact keyVal_genKey f.code.co_firstlineno j hn
  · have hext := (extract_eq_ok m none FilterArg.noFilter
      (fun h => FilterArg.noConfusion h) H1 H2).1
    have hpw := sorted_sel_pairwise_lt _ H1
    have hmem2 : f ∈ sortByLineno (selectedMembers m none FilterArg.noFilter) :=
      ((List.perm_insertionSort byLineno _).mem_iff).mpr hmem
    have hsplit := sorted_split hpw hmem2
    rw [hext]
    conv_lhs => rw [hsplit]
    simp [List.flatMap_append, List.flatMap_cons, List.map_append, List.map_flatMap,
      List.append_assoc]

/-- Witness for claim C2: applied to the example module's case generator, the
dict keys are `5 + 0/2` and `5 + 1/2`. -/
theorem claim_C2_witness :
    (memberPairs (fnW ("case_gen") 5 (some genSpecW))).map (fun p => keyVal p.1) =
      (List.range genSpecW.combos.length).map (fun i : ℕ =>
        (((fnW ("case_gen") 5 (some genSpecW)).code.co_firstlineno : ℚ)) +
          (i : ℚ) / (genSpecW.combos.length : ℚ)) :=
  (claim_C2 modW (fnW ("case_gen") 5 (some genSpecW)) genSpecW
    (by
      rw [show selectedMembers modW none FilterArg.noFilter =
        [fnW ("case_b") 10 none, fnW ("case_gen") 5 (some genSpecW)] from rfl]
      exact List.mem_cons_of_mem _ (List.mem_cons_self _ _))
    rfl (by decide) (by decide) (by decide)).2.1

/-- Counterexample to claim C2 as stated: in `modC2X` the case generator
`case_g` (two generated cases `n0` and `n1`, keys `5` and `5 + 1/2`) shares
line 5 with the plain case function `case_p` (key `5`); the getter of the
generated case `n0` is overwritten in the line-number dict, so the two
generated cases do not both appear in the returned list. -/
theorem claim_C2_counterexample :
    genNames genSpecX = ["n0", "n1"] ∧
    Except.map (List.map CaseDataFromFunction.str)
      (extract_cases_from_module modC2X none FilterArg.noFilter) = .ok ["case_p", "n1"] :=
  ⟨rfl, rfl⟩

theorem strBeq_iff (a b : String) : strBeq a b = true ↔ a = b := by
  rw [strBeq, beq_iff_eq]

/-- Claim C3: a case function discovered by `extract_cases_from_module` is
selected iff (`has_tag` is `None` or a member of the function's tag tuple) and
(`filter` is `None` or returns a truthy value on the tag tuple); when both are
given, both conditions must hold.  The second conjunct ties the selection
predicate to the membership computed during extraction. -/
theorem claim_C3 {V : Type} [DecidableEq V] (has_tag : Option V)
    (filt : Option (List V → Bool)) (tags : List V) (m : PyModule V)
    (fl : FilterArg V) (f : PyFunc V) (hfl : fl.fn? = filt) :
    (caseSelected has_tag filt tags = true ↔
      ((has_tag = none ∨ ∃ t, has_tag = some t ∧ t ∈ tags) ∧
        (filt = none ∨ ∃ p, filt = some p ∧ p tags = true))) ∧
    (f ∈ selectedMembers m has_tag fl ↔
      f ∈ moduleCaseMembers m ∧ caseSelected has_tag fl.fn? f.tags = true) := by
  constructor
  · cases has_tag with
    | none =>
      cases filt with
      | none => simp [caseSelected]
      | some p => simp [caseSelected]
    | some t =>
      cases filt with
      | none => simp [caseSelected]
      | some p => simp [caseSelected, and_comm]
  · rw [selectedMembers, List.mem_filter]

/-- Witness for claim C3 at a concrete tag, filter, module and function. -/
theorem claim_C3_witness :
    (caseSelected (some 1) (none : Option (List ℕ → Bool)) [1, 2] = true ↔
      ((some 1 = none ∨ ∃ t, some 1 = some t ∧ t ∈ [1, 2]) ∧
        ((none : Option (List ℕ → Bool)) = none ∨
          ∃ p, (none : Option (List ℕ → Bool)) = some p ∧ p [1, 2] = true))) ∧
    (fnW ("case_b") 10 none ∈ selectedMembers modW (some 1) FilterArg.noFilter ↔
      fnW ("case_b") 10 none ∈ moduleCaseMembers modW ∧
        caseSelected (some 1) FilterArg.noFilter.fn?
          (fnW ("case_b") 10 none).tags = true) :=
  claim_C3 (some 1) none [1, 2] modW FilterArg.noFilter (fnW ("case_b") 10 none) rfl

/-- Claim C5: for a case generator whose name template produces the same
generated case name for two different parameter-value combinations,
`_get_case_getter_s` raises a `ValueError`; if all generated names are
distinct, no error is raised and one case getter is produced per
combination. -/
theorem claim_C5 {V : Type} (f : PyFunc V) (g : GenSpec V) (hg : f.gen = some g) :
    (¬ (genNames g).Nodup →
      _get_case_getter_s f = .error (.valueError (dupNamesMsg f))) ∧
    ((genNames g).Nodup →
      _get_case_getter_s f = .ok (g.combos.map (fun vals =>
        ⟨f, some (g.nameTemplate (pyDictZip g.paramIds vals)), pyDictZip g.paramIds vals⟩))) :=
  ⟨fun h => get_case_getter_s_gen_err f g hg h,
   fun h => get_case_getter_s_gen_ok f g hg h⟩

/-- Witness for claim C5: the example generator has distinct names, so one
getter per combination is produced. -/
theorem claim_C5_witness :
    _get_case_getter_s (fnW ("case_gen") 5 (some genSpecW)) =
      .ok (genSpecW.combos.map (fun vals =>
        ⟨fnW ("case_gen") 5 (some genSpecW),
          some (genSpecW.nameTemplate (pyDictZip genSpecW.paramIds vals)),
          pyDictZip genSpecW.paramIds vals⟩)) :=
  (claim_C5 (fnW ("case_gen") 5 (some genSpecW)) genSpecW rfl).2 (by decide)

/-- Claim C7: for every module and every non-None, non-callable filter
argument, `extract_cases_from_module` raises a `ValueError` before gathering
any case, and no case getter is produced. -/
theorem claim_C7 {V : Type} [DecidableEq V] (m : PyModule V) (has_tag : Option V) :
    extract_cases_from_module m has_tag FilterArg.nonCallable =
      .error (.valueError filterNotCallableMsg) := rfl

/-- Claim C9: when both `cases` and `module` are given, `get_all_cases` raises
a `ValueError` immediately, before any case extraction or module access. -/
theorem claim_C9 {V : Type} [DecidableEq V] (c : CasesArg V) (ma : ModuleArg V)
    (has_tag : Option V) (filt : FilterArg V) :
    get_all_cases (some c) (some ma) has_tag filt = .error (.valueError onlyOneMsg) := by
  cases c <;> cases ma <;> rfl

/-- Claim C10: `CaseDataFromFunction.get` invokes the stored function with the
positional arguments unchanged and a keyword mapping in which the stored
`function_kwargs` override caller-supplied keywords of the same name. -/
theorem claim_C10 {V : Type} (c : CaseDataFromFunction V) (args : List V)
    (kwargs : List (String × V)) (k : String)
    (h : (c.function_kwargs.map Prod.fst).Nodup) :
    c.get args kwargs = c.f.call args (pyUpdate strBeq kwargs c.function_kwargs) ∧
    pyGet strBeq (pyUpdate strBeq kwargs c.function_kwargs) k =
      (pyGet strBeq c.function_kwargs k).or (pyGet strBeq kwargs k) := by
  refine ⟨rfl, ?_⟩
  exact pyUpdate_lookup strBeq_iff c.function_kwargs kwargs k h

/-- Witness for claim C10: the stored parameter `a = 1` wins over the
caller-supplied keyword `a = 5`. -/
theorem claim_C10_witness :
    CaseDataFromFunction.get cW10 [] [("a", 5), ("b", 2)] =
      cW10.f.call [] (pyUpdate strBeq [("a", 5), ("b", 2)] cW10.function_kwargs) ∧
    pyGet strBeq (pyUpdate strBeq [("a", 5), ("b", 2)] cW10.function_kwargs) ("a") =
      (pyGet strBeq cW10.function_kwargs ("a")).or
        (pyGet strBeq [("a", 5), ("b", 2)] ("a")) :=
  claim_C10 cW10 [] [("a", 5), ("b", 2)] ("a") (by decide)

theorem toDigitsCore_eq_digits (fuel : Nat) :
    ∀ (n : Nat) (acc : List Char), 0 < n → n ≤ fuel →
      Nat.toDigitsCore 10 fuel n acc =
        ((Nat.digits 10 n).map Nat.digitChar).reverse ++ acc := by
  induction fuel with
  | zero => intro n acc hn hf; omega
  | succ fuel ih =>
    intro n acc hn hf
    rw [show Nat.toDigitsCore 10 (fuel + 1) n acc =
      (if n / 10 = 0 then Nat.digitChar (n % 10) :: acc
       else Nat.toDigitsCore 10 fuel (n / 10) (Nat.digitChar (n % 10) :: acc)) from rfl]
    rw [Nat.digits_def' (by norm_num : (1 : ℕ) < 10) hn]
    by_cases h : n / 10 = 0
    · rw [if_pos h, h, Nat.digits_zero]
      simp
    · rw [if_neg h]
      have hdiv : n / 10 < n := Nat.div_lt_self hn (by norm_num)
      rw [ih (n / 10) _ (Nat.pos_of_ne_zero h) (by omega)]
      simp

theorem repr_eq_digits (n : Nat) (hn : 0 < n) :
    Nat.repr n = (((Nat.digits 10 n).map Nat.digitChar).reverse).asString := by
  rw [Nat.repr, Nat.toDigits]
  rw [toDigitsCore_eq_digits (n + 1) n [] hn (by omega)]
  rw [List.append_nil]

theorem digitChar_inj_lt {a b : Nat} (ha : a < 10) (hb : b < 10)
    (h : Nat.digitChar a = Nat.digitChar b) : a = b := by
  interval_cases a <;> interval_cases b <;> revert h <;> decide

theorem map_digitChar_inj :
    ∀ {l1 l2 : List Nat}, (∀ d ∈ l1, d < 10) → (∀ d ∈ l2, d < 10) →
      l1.map Nat.digitChar = l2.map Nat.digitChar → l1 = l2
  | [], [], _, _, _ => rfl
  | [], _ :: _, _, _, h => by simp at h
  | _ :: _, [], _, _, h => by simp at h
  | a :: as, b :: bs, h1, h2, h => by
    rw [List.map_cons, List.map_cons] at h
    obtain ⟨hh, ht⟩ := List.cons.inj h
    rw [digitChar_inj_lt (h1 a (by simp)) (h2 b (by simp)) hh,
      map_digitChar_inj (fun d hd => h1 d (by simp [hd])) (fun d hd => h2 d (by simp [hd])) ht]

theorem digits_eq_of_repr_eq {a b : Nat} (ha : 0 < a) (hb : 0 < b)
    (h : Nat.repr a = Nat.repr b) : Nat.digits 10 a = Nat.digits 10 b := by
  rw [repr_eq_digits a ha, repr_eq_digits b hb] at h
  have hd := congrArg String.data h
  rw [show ((((Nat.digits 10 a).map Nat.digitChar).reverse).asString).data =
    (((Nat.digits 10 a).map Nat.digitChar).reverse) from rfl] at hd
  rw [show ((((Nat.digits 10 b).map Nat.digitChar).reverse).asString).data =
    (((Nat.digits 10 b).map Nat.digitChar).reverse) from rfl] at hd
  rw [List.reverse_inj] at hd
  exact map_digitChar_inj
    (fun d hd2 => Nat.digits_lt_base (by norm_num) hd2)
    (fun d hd2 => Nat.digits_lt_base (by norm_num) hd2) hd

theorem digits_ne_zero_str {b : Nat} (hb : 0 < b) (h : Nat.repr 0 = Nat.repr b) : False := by
  rw [repr_eq_digits b hb] at h
  have hd := congrArg String.data h
  rw [show (Nat.repr 0).data = ['0'] from rfl] at hd
  rw [show ((((Nat.digits 10 b).map Nat.digitChar).reverse).asString).data =
    (((Nat.digits 10 b).map Nat.digitChar).reverse) from rfl] at hd
  have hd2 : (Nat.digits 10 b).map Nat.digitChar = ['0'] := by
    have h3 : ((Nat.digits 10 b).map Nat.digitChar).reverse = (['0'] : List Char).reverse := by
      rw [show (['0'] : List Char).reverse = ['0'] from rfl]
      exact hd.symm
    exact List.reverse_inj.mp h3
  have hdig : Nat.digits 10 b = [0] := by
    apply map_digitChar_inj (fun d hd3 => Nat.digits_lt_base (by norm_num) hd3)
      (fun d hd3 => by
        rw [List.mem_singleton] at hd3
        omega)
    rw [hd2]
    rfl
  have hb2 := Nat.ofDigits_digits 10 b
  rw [hdig, Nat.ofDigits_cons, Nat.ofDigits_nil] at hb2
  omega

theorem nat_repr_injective : ∀ {a b : Nat}, Nat.repr a = Nat.repr b → a = b := by
  intro a b h
  rcases Nat.eq_zero_or_pos a with rfl | ha
  · rcases Nat.eq_zero_or_pos b with rfl | hb
    · rfl
    · exact absurd h (fun hc => digits_ne_zero_str hb hc)
  · rcases Nat.eq_zero_or_pos b with rfl | hb
    · exact absurd h.symm (fun hc => digits_ne_zero_str ha hc)
    · have hd := digits_eq_of_repr_eq ha hb h
      have ha2 := Nat.ofDigits_digits 10 a
      rw [hd] at ha2
      rw [← ha2, Nat.ofDigits_digits 10 b]

theorem numberedName_inj {g : String} {i j : Nat}
    (h : numberedName g i = numberedName g j) : i = j := by
  rw [numberedName, numberedName] at h
  have hd := congrArg String.data h
  rw [String.data_append, String.data_append, String.data_append,
    String.data_append] at hd
  have hij := List.append_cancel_left hd
  exact nat_repr_injective (String.ext hij)

theorem findFreeName_not_mem (genName : String) (taken : List String) :
    findFreeName genName taken ∉ taken := by
  rw [findFreeName]
  by_cases hg : genName ∈ taken
  · rw [if_pos hg]
    cases hfind : (List.range (taken.length + 1)).find?
        (fun j => decide (numberedName genName (j + 1) ∉ taken)) with
    | some j =>
      have hp := List.find?_some hfind
      simpa using hp
    | none =>
      exfalso
      rw [List.find?_eq_none] at hfind
      have hall : ∀ j ∈ List.range (taken.length + 1),
          numberedName genName (j + 1) ∈ taken := by
        intro j hj
        have hp := hfind j hj
        simpa using hp
      have hinj : Function.Injective (fun j : Nat => numberedName genName (j + 1)) := by
        intro a b hab
        have hab2 := numberedName_inj hab
        omega
      have hnd : ((List.range (taken.length + 1)).map
          (fun j => numberedName genName (j + 1))).Nodup :=
        (List.nodup_range _).map hinj
      have hlen : taken.length + 1 ≤ taken.length := by
        calc taken.length + 1
            = ((List.range (taken.length + 1)).map
                (fun j => numberedName genName (j + 1))).length := by simp
          _ = ((List.range (taken.length + 1)).map
                (fun j => numberedName genName (j + 1))).toFinset.card :=
              (List.toFinset_card_of_nodup hnd).symm
          _ ≤ taken.toFinset.card := by
              apply Finset.card_le_card
              intro x hx
              rw [List.mem_toFinset] at hx ⊢
              obtain ⟨j, hj, rfl⟩ := List.mem_map.mp hx
              exact hall j hj
          _ ≤ taken.length := List.toFinset_card_le taken
      omega
  · rw [if_neg hg]
    exact hg

theorem yieldAll_eq {V : Type} : ∀ (l : List (FixVal V)), yieldAll l = l
  | [] => rfl
  | x :: xs => by rw [yieldAll, yieldAll_eq xs]

theorem processMarks_ok {V : Type} (fixtureName : String) :
    ∀ (marks : List (PMark V)) (pm : List (String × List String)) (dir : List String),
      (∀ mrk ∈ marks, mrk.param_names ≠ []) →
      ∃ pm2 dir2, processMarks fixtureName marks pm dir = .ok (pm ++ pm2, dir2) ∧
        ∀ q ∈ pm2, q.1 ∉ dir
  | [], pm, dir, _ => ⟨[], dir, by simp [processMarks], by simp⟩
  | mrk :: rest, pm, dir, h => by
    have hne : mrk.param_names ≠ [] := h mrk (List.mem_cons_self _ _)
    have hlen : ¬ mrk.param_names.length < 1 := by
      cases hpn : mrk.param_names with
      | nil => exact absurd hpn hne
      | cons a t => simp [hpn]
    have hfresh := findFreeName_not_mem
      (fixtureName ++ ("__") ++ String.intercalate ("X") mrk.param_names) dir
    obtain ⟨pm2, dir2, heq, hq⟩ := processMarks_ok fixtureName rest
      (pm ++ [(findFreeName
        (fixtureName ++ ("__") ++ String.intercalate ("X") mrk.param_names) dir,
        mrk.param_names)])
      (dir ++ [findFreeName
        (fixtureName ++ ("__") ++ String.intercalate ("X") mrk.param_names) dir])
      (fun mrk2 hm2 => h mrk2 (List.mem_cons_of_mem _ hm2))
    refine ⟨(findFreeName
        (fixtureName ++ ("__") ++ String.intercalate ("X") mrk.param_names) dir,
        mrk.param_names) :: pm2, dir2, ?_, ?_⟩
    · simp only [processMarks]
      rw [if_neg hlen, if_neg hfresh, heq]
      simp
    · intro q hq2
      rcases List.mem_cons.mp hq2 with rfl | hq3
      · exact hfresh
      · intro hcon
        exact hq q hq3 (List.mem_append.mpr (Or.inl hcon))

/-- Claim C6, as amended: when the automatically generated param-fixture name
already exists in the target module's namespace, `decorate_pytest_fixture_plus`
does not raise: it appends numeric suffixes (`_1`, `_2`, ...) until a free
name is found and registers the fixture under that name; the duplicate-name
`ValueError` branch is unreachable, and every registered name is new to the
module namespace (the only `ValueError` of this loop is for marks without
parameter names). -/
theorem claim_C6 {V : Type} (fixtureName : String) (marks : List (PMark V))
    (moduleDir : List String) (h : ∀ mrk ∈ marks, mrk.param_names ≠ []) :
    ∃ pm dir2, processMarks fixtureName marks [] moduleDir = .ok (pm, dir2) ∧
      ∀ q ∈ pm, q.1 ∉ moduleDir := by
  obtain ⟨pm2, dir2, heq, hq⟩ := processMarks_ok fixtureName marks [] moduleDir h
  exact ⟨pm2, dir2, by simpa using heq, hq⟩

/-- Witness for claim C6: one mark whose generated name `foo__p` is already
taken. -/
theorem claim_C6_witness :
    ∃ pm dir2, processMarks (V := Nat) ("foo") [⟨["p"], [], none⟩] [] ["foo__p"] =
        .ok (pm, dir2) ∧
      ∀ q ∈ pm, q.1 ∉ ["foo__p"] :=
  claim_C6 ("foo") [⟨["p"], [], none⟩] ["foo__p"] (by decide)

/-- Counterexample to claim C6 as stated: with the generated name `foo__p`
already present in the module namespace, no `ValueError` is raised; the param
fixture is registered as `foo__p_1`. -/
theorem claim_C6_counterexample :
    processMarks (V := Nat) ("foo") [⟨["p"], [], none⟩] [] ["foo__p"] =
      .ok ([("foo__p_1", ["p"])], ["foo__p", "foo__p_1"]) := rfl

/-- Claim C4: `decorate_pytest_fixture_plus` preserves generator-ness: the
wrapped fixture function it builds is a generator function exactly when the
fixture function is one; the generator wrapper yields exactly the sequence of
values yielded by the original function called with the remapped arguments,
and the plain wrapper returns exactly the original function's return value on
the remapped arguments. -/
theorem claim_C4 {V : Type} (ff : PyFixtureFunc V) (fixtureName : String)
    (marks : List (PMark V)) (moduleDir : List String)
    (entries : List (String × List String)) (dir2 : List String)
    (hpm : processMarks fixtureName marks [] moduleDir = .ok (entries, dir2))
    (fps : List (FixVal V)) (aak : ArgsAndKwargs V) (a : List (FixVal V))
    (kw : List (String × FixVal V))
    (hargs : _get_arguments entries fps aak = .ok (a, kw)) :
    ∃ wf, decorate_pytest_fixture_plus ff fixtureName marks moduleDir = .ok (wf, dir2) ∧
      wf.isGeneratorFunction = ff.isGeneratorFunction ∧
      (∀ c, ff = .genFn c → ∃ cw, wf = .genFn cw ∧ cw fps aak = .ok (c a kw)) ∧
      (∀ c, ff = .normal c → ∃ cw, wf = .normal cw ∧ cw fps aak = .ok (c a kw)) := by
  refine ⟨decorate_wrapper ff entries, ?_, ?_, ?_, ?_⟩
  · rw [decorate_pytest_fixture_plus, hpm]
    rfl
  · cases ff <;> rfl
  · intro c hc
    subst hc
    refine ⟨_, rfl, ?_⟩
    show ((_get_arguments entries fps aak) >>= fun ak =>
      Except.ok (yieldAll (c ak.1 ak.2))) = Except.ok (c a kw)
    rw [hargs]
    show Except.ok (yieldAll (c a kw)) = Except.ok (c a kw)
    rw [yieldAll_eq]
  · intro c hc
    subst hc
    refine ⟨_, rfl, ?_⟩
    show ((_get_arguments entries fps aak) >>= fun ak =>
      Except.ok (c ak.1 ak.2)) = Except.ok (c a kw)
    rw [hargs]
    rfl

/-- Witness for claim C4: a generator fixture function with a single-parameter
mark and a two-parameter mark; the tuple-valued fixture parameter is unpacked
into the keywords `q` and `r`. -/
theorem claim_C4_witness :
    ∃ wf, decorate_pytest_fixture_plus ffW ("fx") marksW [] =
        .ok (wf, ["fx__p", "fx__qXr"]) ∧
      wf.isGeneratorFunction = ffW.isGeneratorFunction ∧
      (∀ c, ffW = .genFn c → ∃ cw, wf = .genFn cw ∧
        cw fpsW aakW = .ok (c [FixVal.scalar 4]
          [("p", FixVal.scalar 7), ("q", FixVal.scalar 8), ("r", FixVal.scalar 9)])) ∧
      (∀ c, ffW = .normal c → ∃ cw, wf = .normal cw ∧
        cw fpsW aakW = .ok (c [FixVal.scalar 4]
          [("p", FixVal.scalar 7), ("q", FixVal.scalar 8), ("r", FixVal.scalar 9)])) :=
  claim_C4 ffW ("fx") marksW [] [("fx__p", ["p"]), ("fx__qXr", ["q", "r"])]
    ["fx__p", "fx__qXr"] rfl fpsW aakW [FixVal.scalar 4]
    [("p", FixVal.scalar 7), ("q", FixVal.scalar 8), ("r", FixVal.scalar 9)] rfl

/-- Claim C8, as amended: for every case selected by `cases_data` that is
passed directly (its case function carries no pytest marks, so it is not
wrapped in `pytest.param`), the id attached at the same position of the
generated parametrize decorator is the string form of its case getter, which
equals the getter's `case_name` when one was set (in particular the generated
name of a generator case) and otherwise equals the underlying case function's
`__name__`; for a marked case the list element is the `pytest.param` wrapper
and the id is the string form of that wrapper instead. -/
theorem claim_C8 {V : Type} [DecidableEq V] (cases : Option (CasesArg V))
    (module : Option (ModuleArg V)) (argname : String) (has_tag : Option V)
    (filt : FilterArg V) (pd : ParametrizeDecorator V)
    (h : cases_data cases module argname has_tag filt = .ok pd)
    (j : Nat) (c : CaseDataFromFunction V)
    (hj : pd.argvalues[j]? = some (.plain c)) :
    pd.ids[j]? = some (match c.case_name with
      | some nm => nm
      | none => c.f.name) := by
  rw [cases_data] at h
  cases hg : get_all_cases cases module has_tag filt with
  | error e =>
    rw [hg] at h
    cases h
  | ok cs =>
    rw [hg] at h
    have hpd : pd = ⟨argname, cs, cs.map PyParam.str⟩ := by
      cases h
      rfl
    subst hpd
    show (cs.map PyParam.str)[j]? = _
    rw [List.getElem?_map]
    have hj2 : cs[j]? = some (PyParam.plain c) := hj
    rw [hj2]
    rfl

/-- Witness for claim C8: the first id of the decorator generated for the
example module is the generated case name `gen_0`. -/
theorem claim_C8_witness :
    pdW.ids[0]? = some (match cW8.case_name with
      | some nm => nm
      | none => cW8.f.name) :=
  claim_C8 none (some (ModuleArg.one modW)) ("case_data") none FilterArg.noFilter
    pdW rfl 0 cW8 rfl

/-- Counterexample to claim C8 as stated: the only case of `modC8X` carries a
pytest mark, so `get_all_cases` wraps it in `pytest.param`, and the id
`cases_data` computes for it is the string form of the `ParameterSet` named
tuple, not the getter's name `case_m`. -/
theorem claim_C8_counterexample :
    Except.map ParametrizeDecorator.ids
      (cases_data none (some (ModuleArg.one modC8X)) ("case_data") none
        FilterArg.noFilter) =
      .ok ["ParameterSet(values=(Test Case Data generator - [case_m] - <function case_m>,), marks=[MarkDecorator(mark=Mark(skip))], id=None)"] ∧
    "ParameterSet(values=(Test Case Data generator - [case_m] - <function case_m>,), marks=[MarkDecorator(mark=Mark(skip))], id=None)" ≠ "case_m" :=
  ⟨rfl, by decide⟩
